import Mathlib

/-!
# Robots on a stripe: a shallow embedding of `src/Robots/robot_solution.go`

Two robots walk along an integer line, each interpreting a small program of
textual commands (`ML`, `MR`, `IF FLAG`, `GOTO n`).  `Stripe.Step` lets robot 1
and then robot 2 execute one command and reports whether they stand on the same
cell; `Stripe.Run` repeats `Step` until the robots meet or `MaxSteps` completed
steps have been counted.

Modelling conventions

* Go `int` is the 64-bit signed integer.  A value is kept as an `Int` and every
  arithmetic result that can leave the 64-bit range is reduced by `wrapInt`
  (two's complement wrap-around): `Position++`, `Position--` and `lineNum - 1`.
  The counter updates `(PC + 1) % len` and `(PC + 2) % len` follow a successful
  fetch, so `PC < len(Program)` and the sums cannot overflow.  `Steps++` is
  `Steps + 1`: `Run` executes it only under the guard `Steps < MaxSteps`, so
  with a 64-bit `MaxSteps` the sum stays in the range.
* A Go run-time panic (`index out of range`) is an `Except.error`; every
  function that indexes a slice returns `Except Panic _`.
* `[]*Robot` is modelled as a list of robot values.  `NewStripe` allocates two
  distinct robots, so the two pointers never alias; the write through the
  pointer in `ExecuteCommand` becomes a `List.set` at the robot's index
  (`Stripe.ExecuteCommandAt`).
* `time.Sleep` and the text written to standard output are not part of the
  state.  The index expressions evaluated while printing are modelled, because
  they can panic.
* `fmt.Sscanf(cmd, "GOTO %d", &lineNum)` is library code; `sscanfGoto` models
  what it leaves in `lineNum` (initially `0`, and untouched on a scan error).
  A number outside the 64-bit range is a scan error.
-/

namespace RobotSolution

/-! ## Data model -/

/-- Go run-time panic raised by an index expression `xs[i]`. -/
inductive Panic where
  | indexOutOfRange (index : Int) (length : Nat)
deriving DecidableEq

/-- Robot on the stripe (`type Robot struct`). -/
structure Robot where
  ID : Int
  Position : Int
  Program : List String
  PC : Int
deriving DecidableEq

/-- Stripe with its robots (`type Stripe struct`). -/
structure Stripe where
  Robots : List Robot
  BlackCell : Int
  Steps : Int
  MaxSteps : Int
  ShowDisplay : Bool
  DelayMs : Int
deriving DecidableEq

/-- Smallest value of a Go `int` (64 bit). -/
def minInt : Int := -9223372036854775808

/-- Largest value of a Go `int` (64 bit). -/
def maxInt : Int := 9223372036854775807

/-- Two's complement wrap-around of an arithmetic result to the 64-bit range. -/
def wrapInt (x : Int) : Int :=
  (x + 9223372036854775808) % 18446744073709551616 - 9223372036854775808

/-- Index expression `xs[i]` of Go: panics unless `0 ≤ i < len(xs)`. -/
def index {α : Type} (xs : List α) (i : Int) : Except Panic α :=
  if i < 0 then .error (.indexOutOfRange i xs.length)
  else
    match xs[i.toNat]? with
    | some x => .ok x
    | none => .error (.indexOutOfRange i xs.length)

/-! ## The scanner behind `GOTO n` -/

/-- White space of Go's `fmt` scanner (`isSpace`); it includes the newline. -/
def isSpace (c : Char) : Bool :=
  let n := c.toNat
  (0x0009 ≤ n && n ≤ 0x000d) || n == 0x0020 || n == 0x0085 || n == 0x00a0 ||
  n == 0x1680 || (0x2000 ≤ n && n ≤ 0x200a) || (0x2028 ≤ n && n ≤ 0x2029) ||
  n == 0x202f || n == 0x205f || n == 0x3000

/-- Value of a run of decimal digits read left to right, starting from `acc`. -/
def digitsValue (acc : Nat) : List Char → Nat
  | [] => acc
  | c :: cs => digitsValue (acc * 10 + (c.toNat - '0'.toNat)) cs

/-- The `%d` verb: an optional sign, then at least one decimal digit; what
follows the digits is left unread.  The result is `none` on a scan error: end
of input, a newline, no digit, or a number outside the 64-bit range (the error
of `strconv.ParseInt`). -/
def scanInt (input : List Char) : Option Int :=
  let scanNumber (negative : Bool) (rest : List Char) : Option Int :=
    let tok := rest.takeWhile Char.isDigit
    let value : Int := if negative then -(digitsValue 0 tok : Int) else (digitsValue 0 tok : Int)
    if tok.isEmpty then none
    else if value < minInt || maxInt < value then none
    else some value
  match input with
  | [] => none
  | '\n' :: _ => none
  | '+' :: rest => scanNumber false rest
  | '-' :: rest => scanNumber true rest
  | rest => scanNumber false rest

/-- Model of `var lineNum int; fmt.Sscanf(cmd, "GOTO %d", &lineNum)`: the value
of `lineNum` afterwards.  The literal `GOTO` must match; the blank of the format
matches one or more spaces (not a newline) or the end of the input; then `%d`
is scanned.  On any scan error `lineNum` keeps its zero value. -/
def sscanfGoto (cmd : List Char) : Int :=
  match cmd with
  | 'G' :: 'O' :: 'T' :: 'O' :: rest =>
    match rest with
    | [] => 0
    | c :: _ =>
      if !isSpace c || c == '\n' then 0
      else (scanInt (rest.dropWhile fun d => isSpace d && d != '\n')).getD 0
  | _ => 0

/-- The test `len(cmd) >= 4 && cmd[:4] == "GOTO"`.  Go slices bytes; the four
bytes of `GOTO` are ASCII, so the first four bytes are `GOTO` exactly when the
first four characters are. -/
def hasGotoPrefix (cmd : String) : Bool :=
  decide (4 ≤ cmd.length) && cmd.toList.take 4 == ['G', 'O', 'T', 'O']

/-- The command text of a jump to line `target`, written as
`fmt.Sprintf("GOTO %d", target)` writes it. -/
def gotoCmd (target : Int) : String :=
  "GOTO " ++ toString target

/-! ## The program -/

/-- The program literal of `NewStripe`, shared by both robots. -/
def program : List String :=
  [ "MR",       -- 1
    "IF FLAG",  -- 2
    "GOTO 7",   -- 3
    "MR",       -- 4
    "ML",       -- 5
    "GOTO 1",   -- 6
    "MR",       -- 7
    "GOTO 7" ]  -- 8

/-- Constructor `NewStripe`: two robots with the built-in program and `PC = 0`. -/
def NewStripe (robot1Pos robot2Pos blackCellPos maxSteps : Int)
    (showDisplay : Bool) (delayMs : Int) : Stripe :=
  { Robots :=
      [ { ID := 1, Position := robot1Pos, Program := program, PC := 0 },
        { ID := 2, Position := robot2Pos, Program := program, PC := 0 } ]
    BlackCell := blackCellPos
    Steps := 0
    MaxSteps := maxSteps
    ShowDisplay := showDisplay
    DelayMs := delayMs }

/-- The program counter of a robot is an index of its program. -/
def ValidPC (robot : Robot) : Prop :=
  0 ≤ robot.PC ∧ robot.PC < robot.Program.length

instance (robot : Robot) : Decidable (ValidPC robot) := by
  unfold ValidPC; infer_instance

/-- Every command of the program that `ExecuteCommand` treats as a jump (it
starts with `GOTO`) names a line of the program: the scanned line number lies
in `[1, len(program)]`. -/
def JumpsInRange (prog : List String) : Bool :=
  prog.all fun cmd =>
    !hasGotoPrefix cmd ||
      (decide (1 ≤ sscanfGoto cmd.toList) && decide (sscanfGoto cmd.toList ≤ prog.length))

namespace Stripe

/-- Method `IsOnBlackCell`: the robot position is the black cell. -/
def IsOnBlackCell (s : Stripe) (robotPos : Int) : Bool :=
  robotPos == s.BlackCell

/-- Method `ExecuteCommand`: fetch `robot.Program[robot.PC]` and execute it.  The
result is the robot as the call leaves it.  Go's `%` is the truncated
remainder `Int.tmod`; the divisor `len(robot.Program)` is positive whenever the
fetch succeeded, and then `PC < len(robot.Program)`, so `PC + 1` and `PC + 2`
do not overflow. -/
def ExecuteCommand (s : Stripe) (robot : Robot) : Except Panic Robot := do
  let cmd ← index robot.Program robot.PC
  match cmd with
  | "ML" =>
    pure { robot with
      Position := wrapInt (robot.Position - 1)
      PC := (robot.PC + 1).tmod robot.Program.length }
  | "MR" =>
    pure { robot with
      Position := wrapInt (robot.Position + 1)
      PC := (robot.PC + 1).tmod robot.Program.length }
  | "IF FLAG" =>
    if s.IsOnBlackCell robot.Position then
      pure { robot with PC := (robot.PC + 1).tmod robot.Program.length }
    else
      pure { robot with PC := (robot.PC + 2).tmod robot.Program.length }
  | _ =>
    if hasGotoPrefix cmd then
      let lineNum := sscanfGoto cmd.toList
      pure { robot with PC := wrapInt (lineNum - 1) }
    else
      pure { robot with PC := (robot.PC + 1).tmod robot.Program.length }

/-- The robot after `n` consecutive calls of `ExecuteCommand` on it; the first
panic ends the sequence. -/
def ticks (s : Stripe) : Nat → Robot → Except Panic Robot
  | 0, robot => .ok robot
  | n + 1, robot =>
    match s.ExecuteCommand robot with
    | .ok robot' => ticks s n robot'
    | .error e => .error e

/-- The call `s.ExecuteCommand(s.Robots[i])`: the robot behind the pointer
`s.Robots[i]` is updated in place. -/
def ExecuteCommandAt (s : Stripe) (i : Nat) : Except Panic Stripe := do
  let robot ← index s.Robots i
  let robot' ← s.ExecuteCommand robot
  pure { s with Robots := s.Robots.set i robot' }

/-- The condition `s.Robots[0].Position == s.Robots[1].Position`. -/
def samePosition (s : Stripe) : Except Panic Bool := do
  let r0 ← index s.Robots 0
  let r1 ← index s.Robots 1
  pure (r0.Position == r1.Position)

/-- Method `Step`: one step of the simulation; the Boolean is the returned value. -/
def Step (s : Stripe) : Except Panic (Bool × Stripe) := do
  let s1 ← s.ExecuteCommandAt 0
  if ← s1.samePosition then
    return (true, s1)
  let s2 ← s1.ExecuteCommandAt 1
  if ← s2.samePosition then
    return (true, s2)
  return (false, { s2 with Steps := s2.Steps + 1 })

/-- Method `DisplayState`: the printed text is not modelled, the index expressions
evaluated on the way are: `s.Robots[0]`, `s.Robots[1]` for the window, and
`robot.Program[robot.PC]` for every robot of `s.Robots` in order. -/
def DisplayState (s : Stripe) : Except Panic Unit := do
  let _ ← index s.Robots 0
  let _ ← index s.Robots 1
  s.Robots.forM fun robot => do
    let _ ← index robot.Program robot.PC
    pure ()

/-- The loop `for s.Steps < s.MaxSteps && !robotsMet { ... }` of `Run`.  Every
iteration that does not set `robotsMet` adds one to `Steps`, so the loop runs at
most `MaxSteps - Steps` iterations; `fuel` counts the iterations that remain,
and `Run` supplies exactly that many.  The fuel never cuts the loop short:
`runLoop_fuel_succ` shows that more fuel gives the same result. -/
def runLoop : Nat → Stripe → Bool → Except Panic (Bool × Stripe)
  | 0, s, robotsMet => pure (robotsMet, s)
  | fuel + 1, s, robotsMet =>
    if s.Steps < s.MaxSteps && !robotsMet then do
      let (robotsMet', s') ← s.Step
      if s'.ShowDisplay then
        s'.DisplayState
      runLoop fuel s' robotsMet'
    else
      pure (robotsMet, s)

/-- Method `Run`: show the initial state, loop, and return `robotsMet`.  The reported
meeting position is `Robots[0].Position` of the returned stripe and the
reported step count is its `Steps`. -/
def Run (s : Stripe) : Except Panic (Bool × Stripe) := do
  s.DisplayState
  runLoop (s.MaxSteps - s.Steps).toNat s false

/-- The stripe with its budget and its display settings replaced; robots, black
cell and step counter are kept. -/
def withSettings (s : Stripe) (maxSteps : Int) (showDisplay : Bool) (delayMs : Int) : Stripe :=
  { s with MaxSteps := maxSteps, ShowDisplay := showDisplay, DelayMs := delayMs }

/-- Exactly `k` consecutive executions of `Step` that all return `false`; the stripe
after them, or `none` if one of them panics or returns `true`. -/
def stepsNotMet : Nat → Stripe → Option Stripe
  | 0, s => some s
  | k + 1, s =>
    match s.Step with
    | .ok (false, s') => stepsNotMet k s'
    | _ => none

/-- A stripe with exactly two robots whose program counters are indices of
their programs and whose programs jump only to existing lines. -/
def WellFormed (s : Stripe) : Prop :=
  match s.Robots with
  | [r1, r2] => ValidPC r1 ∧ ValidPC r2 ∧ JumpsInRange r1.Program = true ∧
      JumpsInRange r2.Program = true
  | _ => False

instance (s : Stripe) : Decidable (WellFormed s) := by
  unfold WellFormed; split <;> infer_instance

/-- The stripes that executions of `Step` reach from `s0`. -/
inductive Reachable (s0 : Stripe) : Stripe → Prop where
  | start : Reachable s0 s0
  | step {s s' : Stripe} {met : Bool} : Reachable s0 s → s.Step = .ok (met, s') →
      Reachable s0 s'

/-! ## Basic facts -/

theorem index_eq_ok {α : Type} (xs : List α) (i : Int) (h0 : 0 ≤ i) (h1 : i < xs.length) :
    ∃ x, index xs i = .ok x ∧ xs[i.toNat]? = some x := by
  have hlt : i.toNat < xs.length := by omega
  refine ⟨xs[i.toNat], ?_, List.getElem?_eq_getElem hlt⟩
  unfold index
  rw [if_neg (by omega), List.getElem?_eq_getElem hlt]

theorem index_ok_iff {α : Type} (xs : List α) (i : Int) (x : α) :
    index xs i = .ok x ↔ 0 ≤ i ∧ xs[i.toNat]? = some x := by
  unfold index
  by_cases h : i < 0
  · simp [h]
  · have h0 : 0 ≤ i := by omega
    cases hx : xs[i.toNat]? <;> simp [h, h0]

theorem index_pair_zero {α : Type} (a b : α) : index [a, b] 0 = .ok a := rfl

theorem index_pair_one {α : Type} (a b : α) : index [a, b] 1 = .ok b := rfl

/-! ## Scanning the decimal text of a number -/

theorem digitChar_isDigit (k : Nat) (h : k < 10) : (Nat.digitChar k).isDigit = true := by
  interval_cases k <;> rfl

theorem digitChar_value (k : Nat) (h : k < 10) : (Nat.digitChar k).toNat - '0'.toNat = k := by
  interval_cases k <;> rfl

theorem digitsValue_append (l rest : List Char) (acc : Nat) :
    digitsValue acc (l ++ rest) = digitsValue (digitsValue acc l) rest := by
  induction l generalizing acc with
  | nil => rfl
  | cons c cs ih => exact ih _

theorem digitsValue_cons (acc : Nat) (c : Char) (cs : List Char) :
    digitsValue acc (c :: cs) = digitsValue (acc * 10 + (c.toNat - '0'.toNat)) cs := rfl

theorem digitsValue_nil (acc : Nat) : digitsValue acc [] = acc := rfl

theorem digitsValue_digitChar (acc k : Nat) (h : k < 10) :
    digitsValue acc [Nat.digitChar k] = acc * 10 + k := by
  rw [digitsValue_cons, digitsValue_nil, digitChar_value k h]

theorem toDigitsCore_succ (fuel n : Nat) (ds : List Char) :
    Nat.toDigitsCore 10 (fuel + 1) n ds =
      if n / 10 = 0 then Nat.digitChar (n % 10) :: ds
      else Nat.toDigitsCore 10 fuel (n / 10) (Nat.digitChar (n % 10) :: ds) := rfl

/-- The digits written by `Nat.toDigitsCore` in base ten, in front of `ds`. -/
theorem toDigitsCore_spec (fuel : Nat) :
    ∀ n ds, n < fuel → ∃ l, Nat.toDigitsCore 10 fuel n ds = l ++ ds ∧ l ≠ [] ∧
      (∀ c ∈ l, c.isDigit = true) ∧ ∀ acc, digitsValue acc l = acc * 10 ^ l.length + n := by
  induction fuel with
  | zero => intro n ds h; omega
  | succ fuel ih =>
    intro n ds h
    have hmod : n % 10 < 10 := Nat.mod_lt _ (by decide)
    rw [toDigitsCore_succ]
    by_cases hz : n / 10 = 0
    · rw [if_pos hz]
      refine ⟨[Nat.digitChar (n % 10)], rfl, List.cons_ne_nil _ _, ?_, ?_⟩
      · intro c hc
        rw [List.mem_singleton] at hc
        rw [hc]
        exact digitChar_isDigit _ hmod
      · intro acc
        have hn : n % 10 = n := by omega
        rw [digitsValue_digitChar acc _ hmod, hn, List.length_singleton, pow_one]
    · rw [if_neg hz]
      have hlt : n / 10 < fuel := by omega
      obtain ⟨l, hl, hne, hdig, hval⟩ := ih (n / 10) (Nat.digitChar (n % 10) :: ds) hlt
      refine ⟨l ++ [Nat.digitChar (n % 10)], ?_, ?_, ?_, ?_⟩
      · rw [hl, List.append_assoc, List.singleton_append]
      · intro hnil
        exact hne (List.append_eq_nil.mp hnil).1
      · intro c hc
        rw [List.mem_append, List.mem_singleton] at hc
        rcases hc with hc | hc
        · exact hdig c hc
        · rw [hc]; exact digitChar_isDigit _ hmod
      · intro acc
        rw [digitsValue_append, hval, digitsValue_digitChar _ _ hmod, List.length_append,
          List.length_singleton, pow_succ]
        have hdm := Nat.div_add_mod n 10
        have : (acc * 10 ^ l.length + n / 10) * 10 + n % 10
            = acc * (10 ^ l.length * 10) + (10 * (n / 10) + n % 10) := by ring
        rw [this, hdm]

theorem toDigits_spec (n : Nat) :
    Nat.toDigits 10 n ≠ [] ∧ (∀ c ∈ Nat.toDigits 10 n, c.isDigit = true) ∧
      digitsValue 0 (Nat.toDigits 10 n) = n := by
  obtain ⟨l, hl, hne, hdig, hval⟩ := toDigitsCore_spec (n + 1) n [] (Nat.lt_succ_self n)
  rw [List.append_nil] at hl
  unfold Nat.toDigits
  rw [hl]
  exact ⟨hne, hdig, by simpa using hval 0⟩

theorem takeWhile_all {α : Type} (p : α → Bool) (l : List α) (h : ∀ c ∈ l, p c = true) :
    l.takeWhile p = l := by
  induction l with
  | nil => rfl
  | cons c cs ih =>
    rw [List.takeWhile_cons, h c (List.mem_cons_self _ _)]
    simp only [↓reduceIte]
    rw [ih fun d hd => h d (List.mem_cons_of_mem _ hd)]

/-- Scanning an unsigned run of digits. -/
theorem scanInt_digits (l : List Char) (hne : l ≠ []) (hdig : ∀ c ∈ l, c.isDigit = true) :
    scanInt l = if ((digitsValue 0 l : Int) < minInt || maxInt < (digitsValue 0 l : Int))
      then none else some (digitsValue 0 l : Int) := by
  cases l with
  | nil => exact absurd rfl hne
  | cons c cs =>
    have hc : c.isDigit = true := hdig c (List.mem_cons_self _ _)
    have h1 : c ≠ '\n' := by rintro rfl; exact absurd hc (by decide)
    have h2 : c ≠ '+' := by rintro rfl; exact absurd hc (by decide)
    have h3 : c ≠ '-' := by rintro rfl; exact absurd hc (by decide)
    have ht := takeWhile_all Char.isDigit (c :: cs) hdig
    unfold scanInt
    split
    · simp_all
    · simp_all
    · simp_all
    · simp_all
    · simp [ht]

/-- Scanning a minus sign followed by a run of digits. -/
theorem scanInt_minus_digits (l : List Char) (hne : l ≠ [])
    (hdig : ∀ c ∈ l, c.isDigit = true) :
    scanInt ('-' :: l) =
      if (-(digitsValue 0 l : Int) < minInt || maxInt < -(digitsValue 0 l : Int))
      then none else some (-(digitsValue 0 l : Int)) := by
  have ht := takeWhile_all Char.isDigit l hdig
  cases l with
  | nil => exact absurd rfl hne
  | cons c cs =>
    unfold scanInt
    simp [ht]

/-- The scanner reads back the decimal text of an integer of the 64-bit range
and fails on the text of any other integer. -/
theorem scanInt_toString (t : Int) :
    scanInt (toString t).toList = if (t < minInt || maxInt < t) then none else some t := by
  cases t with
  | ofNat n =>
    obtain ⟨hne, hdig, hval⟩ := toDigits_spec n
    have : (toString (Int.ofNat n)).toList = Nat.toDigits 10 n := by
      simp [toString, Nat.repr, List.asString]
    rw [this, scanInt_digits _ hne hdig, hval]
    rfl
  | negSucc n =>
    obtain ⟨hne, hdig, hval⟩ := toDigits_spec (n + 1)
    have : (toString (Int.negSucc n)).toList = '-' :: Nat.toDigits 10 (n + 1) := by
      simp [toString, Nat.repr, List.asString]
    rw [this, scanInt_minus_digits _ hne hdig, hval]
    rfl

theorem scanInt_range (l : List Char) (v : Int) (h : scanInt l = some v) :
    minInt ≤ v ∧ v ≤ maxInt := by
  unfold scanInt at h
  simp only at h
  split at h
  · cases h
  · cases h
  all_goals
    split_ifs at h
    all_goals try cases h
    all_goals try contradiction
    all_goals
      rename_i hc
      simp only [Bool.or_eq_true, decide_eq_true_eq, not_or, not_lt] at hc
      exact hc

theorem gotoCmd_toList (t : Int) :
    (gotoCmd t).toList = 'G' :: 'O' :: 'T' :: 'O' :: ' ' :: (toString t).toList := by
  simp [gotoCmd]

/-- The first character written for an integer is a digit or the minus sign. -/
theorem toString_head (t : Int) :
    ∃ c cs, (toString t).toList = c :: cs ∧ (c.isDigit = true ∨ c = '-') := by
  cases t with
  | ofNat n =>
    obtain ⟨hne, hdig, -⟩ := toDigits_spec n
    have : (toString (Int.ofNat n)).toList = Nat.toDigits 10 n := by
      simp [toString, Nat.repr, List.asString]
    rw [this]
    cases hl : Nat.toDigits 10 n with
    | nil => exact absurd hl hne
    | cons c cs => exact ⟨c, cs, rfl, Or.inl (hdig c (by rw [hl]; exact List.mem_cons_self _ _))⟩
  | negSucc n =>
    exact ⟨'-', Nat.toDigits 10 (n + 1), by simp [toString, Nat.repr, List.asString],
      Or.inr rfl⟩

/-- The scan `Sscanf` reads the target back from the text of a jump when it is in
the 64-bit range and leaves `0` otherwise. -/
theorem sscanfGoto_gotoCmd_gen (t : Int) :
    sscanfGoto (gotoCmd t).toList = if (t < minInt || maxInt < t) then 0 else t := by
  obtain ⟨c, cs, hcs, hc⟩ := toString_head t
  have hsp : (isSpace c && c != '\n') = false := by
    rcases hc with hc | hc
    · have : isSpace c = false := by
        unfold Char.isDigit at hc
        unfold isSpace
        simp only [Bool.and_eq_true, decide_eq_true_eq, ge_iff_le] at hc
        have h1 : 48 ≤ c.toNat := hc.1
        have h2 : c.toNat ≤ 57 := hc.2
        simp only [Bool.or_eq_false_iff, Bool.and_eq_false_iff, decide_eq_false_iff_not,
          beq_eq_false_iff_ne]
        omega
      simp [this]
    · subst hc; decide
  have hscan := scanInt_toString t
  rw [gotoCmd_toList]
  unfold sscanfGoto
  simp only
  have hd : List.dropWhile (fun d => isSpace d && d != '\n') (' ' :: (toString t).toList)
      = (toString t).toList := by
    rw [List.dropWhile_cons]
    have : (isSpace ' ' && ' ' != '\n') = true := by decide
    rw [this, hcs]
    simp only [↓reduceIte]
    rw [List.dropWhile_cons, hsp]
    simp
  rw [hd, hscan]
  have : (!isSpace ' ' || ' ' == '\n') = false := by decide
  rw [this]
  simp only [Bool.false_eq_true, ↓reduceIte]
  split_ifs <;> rfl

theorem sscanfGoto_gotoCmd (t : Int) (h1 : minInt ≤ t) (h2 : t ≤ maxInt) :
    sscanfGoto (gotoCmd t).toList = t := by
  rw [sscanfGoto_gotoCmd_gen]
  have : (decide (t < minInt) || decide (maxInt < t)) = false := by
    simp only [Bool.or_eq_false_iff, decide_eq_false_iff_not, not_lt]
    exact ⟨h1, h2⟩
  rw [this]
  rfl

theorem sscanfGoto_gotoCmd_out (t : Int) (h : t < minInt ∨ maxInt < t) :
    sscanfGoto (gotoCmd t).toList = 0 := by
  rw [sscanfGoto_gotoCmd_gen]
  have : (decide (t < minInt) || decide (maxInt < t)) = true := by
    simp only [Bool.or_eq_true, decide_eq_true_eq]
    exact h
  rw [this]
  rfl

/-- Whatever the text, the scanned line number is a 64-bit integer. -/
theorem sscanfGoto_range (cmd : List Char) :
    minInt ≤ sscanfGoto cmd ∧ sscanfGoto cmd ≤ maxInt := by
  have hz : minInt ≤ (0 : Int) ∧ (0 : Int) ≤ maxInt := by decide
  unfold sscanfGoto
  split
  · split
    · exact hz
    · split_ifs
      · exact hz
      · cases hs : scanInt (List.dropWhile (fun d => isSpace d && d != '\n') _) with
        | none => exact hz
        | some v => exact scanInt_range _ v hs
  · exact hz

theorem wrapInt_eq (x : Int) (h1 : minInt ≤ x) (h2 : x ≤ maxInt) : wrapInt x = x := by
  unfold wrapInt
  unfold minInt at h1
  unfold maxInt at h2
  omega

theorem wrapInt_range (x : Int) : minInt ≤ wrapInt x ∧ wrapInt x ≤ maxInt := by
  unfold wrapInt minInt maxInt
  omega

theorem hasGotoPrefix_gotoCmd (t : Int) : hasGotoPrefix (gotoCmd t) = true := by
  unfold hasGotoPrefix
  have hl : (gotoCmd t).length = 5 + (toString t).length := by
    simp [gotoCmd]; rfl
  rw [gotoCmd_toList, hl]
  simp only [List.take, beq_self_eq_true, Bool.and_true, decide_eq_true_eq]
  omega

theorem hasGotoPrefix_not_basic (cmd : String) (h : hasGotoPrefix cmd = true) :
    cmd ≠ "ML" ∧ cmd ≠ "MR" ∧ cmd ≠ "IF FLAG" := by
  refine ⟨?_, ?_, ?_⟩ <;> rintro rfl <;> exact absurd h (by decide)

/-- The tick `ExecuteCommand` reads nothing of the stripe but `BlackCell`. -/
theorem ExecuteCommand_congr (s t : Stripe) (h : s.BlackCell = t.BlackCell) (robot : Robot) :
    s.ExecuteCommand robot = t.ExecuteCommand robot := by
  unfold ExecuteCommand IsOnBlackCell
  rw [h]

theorem ExecuteCommandAt_zero (s : Stripe) (r1 r2 : Robot) (hR : s.Robots = [r1, r2]) :
    s.ExecuteCommandAt 0 = (s.ExecuteCommand r1).map fun r => { s with Robots := [r, r2] } := by
  unfold ExecuteCommandAt
  rw [hR]
  simp only [Nat.cast_zero, index_pair_zero, bind, Except.bind, pure, Except.pure, Except.map,
    List.set]

theorem ExecuteCommandAt_one (s : Stripe) (r1 r2 : Robot) (hR : s.Robots = [r1, r2]) :
    s.ExecuteCommandAt 1 = (s.ExecuteCommand r2).map fun r => { s with Robots := [r1, r] } := by
  unfold ExecuteCommandAt
  rw [hR]
  simp only [Nat.cast_one, index_pair_one, bind, Except.bind, pure, Except.pure, Except.map,
    List.set]

theorem samePosition_pair (s : Stripe) (r1 r2 : Robot) (hR : s.Robots = [r1, r2]) :
    s.samePosition = .ok (r1.Position == r2.Position) := by
  unfold samePosition
  rw [hR]
  rfl

/-- Unfolding of `Step` on a stripe with two robots, in terms of the two ticks. -/
theorem Step_pair (s : Stripe) (r1 r2 : Robot) (hR : s.Robots = [r1, r2]) :
    s.Step =
      match s.ExecuteCommand r1 with
      | .error e => .error e
      | .ok r1' =>
        if r1'.Position = r2.Position then .ok (true, { s with Robots := [r1', r2] })
        else
          match s.ExecuteCommand r2 with
          | .error e => .error e
          | .ok r2' =>
            if r1'.Position = r2'.Position then .ok (true, { s with Robots := [r1', r2'] })
            else .ok (false, { s with Robots := [r1', r2'], Steps := s.Steps + 1 }) := by
  unfold Step
  rw [ExecuteCommandAt_zero s r1 r2 hR]
  cases h1 : s.ExecuteCommand r1 with
  | error e => rfl
  | ok r1' =>
    have hs1 := samePosition_pair { s with Robots := [r1', r2] } r1' r2 rfl
    have ha1 := ExecuteCommandAt_one { s with Robots := [r1', r2] } r1' r2 rfl
    have hc := ExecuteCommand_congr { s with Robots := [r1', r2] } s rfl r2
    simp only [Except.map, bind, Except.bind, pure, Except.pure, hs1, ha1, hc]
    by_cases hp : r1'.Position = r2.Position
    · simp [hp]
    · cases h2 : s.ExecuteCommand r2 with
      | error e => simp [hp, Except.map]
      | ok r2' =>
        have hs2 := samePosition_pair { s with Robots := [r1', r2'] } r1' r2' rfl
        simp only [Except.map, hs2]
        by_cases hq : r1'.Position = r2'.Position
        · simp [hp, hq]
        · simp [hp, hq]

/-! ## One tick -/

theorem fetch_ok (robot : Robot) (cmd : String) (h0 : 0 ≤ robot.PC)
    (hc : robot.Program[robot.PC.toNat]? = some cmd) :
    index robot.Program robot.PC = .ok cmd :=
  (index_ok_iff _ _ _).2 ⟨h0, hc⟩

theorem tmod_length (a : Int) (n : Nat) (h : 0 ≤ a) : a.tmod (n : Int) = a % (n : Int) :=
  Int.tmod_eq_emod h (Int.ofNat_nonneg n)

theorem ExecuteCommand_MR (s : Stripe) (robot : Robot) (h0 : 0 ≤ robot.PC)
    (hc : robot.Program[robot.PC.toNat]? = some "MR") :
    s.ExecuteCommand robot = .ok { robot with
      Position := wrapInt (robot.Position + 1)
      PC := (robot.PC + 1) % (robot.Program.length : Int) } := by
  unfold ExecuteCommand
  rw [fetch_ok robot _ h0 hc, ← tmod_length _ _ (by omega)]
  rfl

theorem ExecuteCommand_ML (s : Stripe) (robot : Robot) (h0 : 0 ≤ robot.PC)
    (hc : robot.Program[robot.PC.toNat]? = some "ML") :
    s.ExecuteCommand robot = .ok { robot with
      Position := wrapInt (robot.Position - 1)
      PC := (robot.PC + 1) % (robot.Program.length : Int) } := by
  unfold ExecuteCommand
  rw [fetch_ok robot _ h0 hc, ← tmod_length _ _ (by omega)]
  rfl

theorem ExecuteCommand_IF (s : Stripe) (robot : Robot) (h0 : 0 ≤ robot.PC)
    (hc : robot.Program[robot.PC.toNat]? = some "IF FLAG") :
    s.ExecuteCommand robot = .ok { robot with
      PC := if robot.Position = s.BlackCell
        then (robot.PC + 1) % (robot.Program.length : Int)
        else (robot.PC + 2) % (robot.Program.length : Int) } := by
  unfold ExecuteCommand
  rw [fetch_ok robot _ h0 hc, ← tmod_length _ _ (show 0 ≤ robot.PC + 1 by omega),
    ← tmod_length _ _ (show 0 ≤ robot.PC + 2 by omega)]
  by_cases hb : robot.Position = s.BlackCell
  · simp [IsOnBlackCell, hb, bind, Except.bind, pure, Except.pure]
  · simp [IsOnBlackCell, hb, bind, Except.bind, pure, Except.pure]

theorem ExecuteCommand_GOTO (s : Stripe) (robot : Robot) (cmd : String) (h0 : 0 ≤ robot.PC)
    (hc : robot.Program[robot.PC.toNat]? = some cmd) (hg : hasGotoPrefix cmd = true) :
    s.ExecuteCommand robot = .ok { robot with PC := wrapInt (sscanfGoto cmd.toList - 1) } := by
  obtain ⟨n1, n2, n3⟩ := hasGotoPrefix_not_basic cmd hg
  unfold ExecuteCommand
  rw [fetch_ok robot _ h0 hc]
  simp only [bind, Except.bind]
  split <;> simp_all [pure, Except.pure]

/-- A command that is none of the four is skipped: only the counter advances. -/
theorem ExecuteCommand_other (s : Stripe) (robot : Robot) (cmd : String) (h0 : 0 ≤ robot.PC)
    (hc : robot.Program[robot.PC.toNat]? = some cmd) (n1 : cmd ≠ "ML") (n2 : cmd ≠ "MR")
    (n3 : cmd ≠ "IF FLAG") (hg : hasGotoPrefix cmd = false) :
    s.ExecuteCommand robot = .ok { robot with
      PC := (robot.PC + 1) % (robot.Program.length : Int) } := by
  unfold ExecuteCommand
  rw [fetch_ok robot _ h0 hc, ← tmod_length _ _ (show 0 ≤ robot.PC + 1 by omega)]
  simp only [bind, Except.bind]
  split <;> simp_all [pure, Except.pure]

theorem ExecuteCommandAt_ok (s : Stripe) (i : Nat) (robot robot' : Robot)
    (hi : s.Robots[i]? = some robot) (he : s.ExecuteCommand robot = .ok robot') :
    s.ExecuteCommandAt i = .ok { s with Robots := s.Robots.set i robot' } := by
  have hx : index s.Robots (i : Int) = .ok robot :=
    (index_ok_iff _ _ _).2 ⟨Int.ofNat_nonneg i, by simpa using hi⟩
  unfold ExecuteCommandAt
  rw [hx]
  simp only [bind, Except.bind, he]
  rfl

/-- C5, as stated, fails: `MR` on the largest cell does not add one to the
position; `Position++` wraps around to the smallest cell. -/
theorem C5_counterexample :
    (NewStripe maxInt 5 0 10 false 0).ExecuteCommand ⟨1, maxInt, program, 0⟩ =
      .ok ⟨1, minInt, program, 1⟩ ∧ minInt ≠ maxInt + 1 := by
  constructor
  · rfl
  · decide

/-- C5, amended.  Move instructions.  For the robot at any index `i` of the stripe, with a
program of length `n` and a valid program counter holding `MR` (`d = 1`) or `ML`
(`d = -1`), one tick moves the robot by `d` in 64-bit arithmetic (exactly by
`d` when `Position + d` is in the 64-bit range; `MR` wraps from the largest to
the smallest cell and `ML` back) and sets its counter to
`(PC + 1) mod n`, which is `0` from the last index; every other robot,
`BlackCell` and `Steps` (indeed every other field of the stripe) are
unchanged. -/
theorem C5_move_tick (s : Stripe) (i : Nat) (robot : Robot) (n : Nat) (cmd : String) (d : Int)
    (hi : s.Robots[i]? = some robot) (hn : robot.Program.length = n)
    (h0 : 0 ≤ robot.PC) (hlt : robot.PC < n)
    (hc : robot.Program[robot.PC.toNat]? = some cmd)
    (hd : (cmd = "MR" ∧ d = 1) ∨ (cmd = "ML" ∧ d = -1))
    (hp : minInt ≤ robot.Position ∧ robot.Position ≤ maxInt) :
    s.ExecuteCommand robot = .ok { robot with
      Position := wrapInt (robot.Position + d), PC := (robot.PC + 1) % (n : Int) } ∧
    ((robot.PC + 1) % (n : Int) = if robot.PC = (n : Int) - 1 then 0 else robot.PC + 1) ∧
    (wrapInt (robot.Position + d) =
      if robot.Position + d < minInt then robot.Position + d + 18446744073709551616
      else if maxInt < robot.Position + d then robot.Position + d - 18446744073709551616
      else robot.Position + d) ∧
    ∃ s', s.ExecuteCommandAt i = .ok s' ∧
      s'.Robots[i]? = some { robot with
        Position := wrapInt (robot.Position + d), PC := (robot.PC + 1) % (n : Int) } ∧
      (∀ j, j ≠ i → s'.Robots[j]? = s.Robots[j]?) ∧
      s'.BlackCell = s.BlackCell ∧ s'.Steps = s.Steps ∧
      s' = { s with Robots := s.Robots.set i { robot with
        Position := wrapInt (robot.Position + d), PC := (robot.PC + 1) % (n : Int) } } := by
  subst hn
  have he : s.ExecuteCommand robot = .ok { robot with
      Position := wrapInt (robot.Position + d), PC := (robot.PC + 1) % (robot.Program.length : Int) } := by
    rcases hd with ⟨rfl, rfl⟩ | ⟨rfl, rfl⟩
    · exact ExecuteCommand_MR s robot h0 hc
    · exact ExecuteCommand_ML s robot h0 hc
  refine ⟨he, ?_, ?_, _, ExecuteCommandAt_ok s i robot _ hi he, ?_, ?_, rfl, rfl, rfl⟩
  · split_ifs with hlast
    · rw [hlast]; simp
    · exact Int.emod_eq_of_lt (by omega) (by omega)
  · have hd' : d = 1 ∨ d = -1 := by
      rcases hd with ⟨-, h⟩ | ⟨-, h⟩
      · exact Or.inl h
      · exact Or.inr h
    unfold wrapInt
    unfold minInt maxInt at hp ⊢
    split_ifs <;> omega
  · have hlen : i < s.Robots.length := by
      by_contra hge
      rw [List.getElem?_eq_none (by omega)] at hi
      cases hi
    simp [List.getElem?_set_self hlen]
  · intro j hj
    exact List.getElem?_set_ne (Ne.symm hj)

theorem C5_move_tick_witness :
    (NewStripe 3 5 0 10 false 0).ExecuteCommand ⟨2, 5, program, 4⟩ =
      .ok ⟨2, wrapInt (5 + -1), program, (4 + 1) % ((8 : Nat) : Int)⟩ ∧
    (((4 : Int) + 1) % ((8 : Nat) : Int) =
      if (4 : Int) = ((8 : Nat) : Int) - 1 then 0 else 4 + 1) ∧
    (wrapInt (5 + -1) =
      if (5 : Int) + -1 < minInt then (5 : Int) + -1 + 18446744073709551616
      else if maxInt < (5 : Int) + -1 then (5 : Int) + -1 - 18446744073709551616
      else 5 + -1) ∧
    ∃ s', (Stripe.mk [⟨1, 3, program, 0⟩, ⟨2, 5, program, 4⟩] 0 0 10 false 0).ExecuteCommandAt 1
        = .ok s' ∧
      s'.Robots[1]? = some ⟨2, wrapInt (5 + -1), program, (4 + 1) % ((8 : Nat) : Int)⟩ ∧
      (∀ j, j ≠ 1 → s'.Robots[j]? =
        ([⟨1, 3, program, 0⟩, ⟨2, 5, program, 4⟩] : List Robot)[j]?) ∧
      s'.BlackCell = 0 ∧ s'.Steps = 0 ∧
      s' = Stripe.mk
        (([⟨1, 3, program, 0⟩, ⟨2, 5, program, 4⟩] : List Robot).set 1
          ⟨2, wrapInt (5 + -1), program, (4 + 1) % ((8 : Nat) : Int)⟩) 0 0 10 false 0 :=
  C5_move_tick (Stripe.mk [⟨1, 3, program, 0⟩, ⟨2, 5, program, 4⟩] 0 0 10 false 0)
    1 ⟨2, 5, program, 4⟩ 8 "ML" (-1)
    rfl rfl (by decide) (by decide) rfl (Or.inr ⟨rfl, rfl⟩) ⟨by decide, by decide⟩

/-- C6. `IF FLAG`: with a program of length `n` and a valid program counter
holding `IF FLAG`, one tick leaves the position unchanged and sets the counter to
`(PC + 1) mod n` when the robot stands on the black cell and to `(PC + 2) mod n`
otherwise. -/
theorem C6_branch_tick (s : Stripe) (robot : Robot) (n : Nat)
    (hn : robot.Program.length = n) (h0 : 0 ≤ robot.PC) (hlt : robot.PC < n)
    (hc : robot.Program[robot.PC.toNat]? = some "IF FLAG") :
    ∃ robot', s.ExecuteCommand robot = .ok robot' ∧
      robot'.Position = robot.Position ∧
      robot'.PC = (if robot.Position = s.BlackCell then (robot.PC + 1) % (n : Int)
        else (robot.PC + 2) % (n : Int)) ∧
      robot'.Program = robot.Program ∧ robot'.ID = robot.ID := by
  subst hn
  exact ⟨_, ExecuteCommand_IF s robot h0 hc, rfl, rfl, rfl, rfl⟩

theorem C6_branch_tick_witness :
    ∃ robot', (NewStripe 0 5 0 10 false 0).ExecuteCommand
        { ID := 1, Position := 1, Program := program, PC := 1 } = .ok robot' ∧
      robot'.Position = (1 : Int) ∧
      robot'.PC = (if (1 : Int) = (NewStripe 0 5 0 10 false 0).BlackCell
        then ((1 : Int) + 1) % ((8 : Nat) : Int) else ((1 : Int) + 2) % ((8 : Nat) : Int)) ∧
      robot'.Program = program ∧ robot'.ID = 1 :=
  C6_branch_tick (NewStripe 0 5 0 10 false 0)
    { ID := 1, Position := 1, Program := program, PC := 1 } 8 rfl (by decide) (by decide) rfl

/-- C7, as stated, fails: the line number of `GOTO 9223372036854775808` does not
fit a 64-bit `int`, the scan fails and leaves `lineNum = 0`, and the counter
becomes `-1`, not `target - 1`. -/
theorem C7_counterexample :
    gotoCmd 9223372036854775808 = "GOTO 9223372036854775808" ∧
    (NewStripe 0 5 0 10 false 0).ExecuteCommand ⟨1, 0, ["GOTO 9223372036854775808"], 0⟩ =
      .ok ⟨1, 0, ["GOTO 9223372036854775808"], -1⟩ ∧
    (-1 : Int) ≠ 9223372036854775808 - 1 := by
  refine ⟨by decide, ?_, by decide⟩
  rfl

/-- C7, amended.  `GOTO`: with a valid program counter holding the command text
`GOTO target`, one tick leaves the position unchanged and sets the counter
without reduction modulo the program length and without bounds check.  For a
`target` of the 64-bit range above its minimum the counter is exactly
`target - 1`, and it is an index of the program exactly when `target` lies in
`[1, length]`; for the minimum the subtraction wraps to the largest `int`; for
a `target` outside the 64-bit range the scan fails and the counter is `-1`. -/
theorem C7_jump_tick (s : Stripe) (robot : Robot) (target : Int) (h0 : 0 ≤ robot.PC)
    (hc : robot.Program[robot.PC.toNat]? = some (gotoCmd target)) :
    ∃ robot', s.ExecuteCommand robot = .ok robot' ∧
      robot' = { robot with PC := robot'.PC } ∧
      robot'.Position = robot.Position ∧
      (minInt < target ∧ target ≤ maxInt →
        robot'.PC = target - 1 ∧
        ((0 ≤ robot'.PC ∧ robot'.PC < robot'.Program.length) ↔
          (1 ≤ target ∧ target ≤ robot.Program.length))) ∧
      (target = minInt → robot'.PC = maxInt) ∧
      (target < minInt ∨ maxInt < target → robot'.PC = -1) := by
  have he := ExecuteCommand_GOTO s robot _ h0 hc (hasGotoPrefix_gotoCmd target)
  refine ⟨_, he, rfl, rfl, ?_, ?_, ?_⟩
  · rintro ⟨h1, h2⟩
    have hpc : wrapInt (sscanfGoto (gotoCmd target).toList - 1) = target - 1 := by
      rw [sscanfGoto_gotoCmd target (le_of_lt h1) h2]
      apply wrapInt_eq <;> unfold minInt maxInt at * <;> omega
    simp only [hpc]
    exact ⟨trivial, by omega⟩
  · rintro rfl
    simp only
    rw [sscanfGoto_gotoCmd minInt (le_refl _) (by decide)]
    rfl
  · intro hout
    simp only
    rw [sscanfGoto_gotoCmd_out target hout]
    rfl

theorem C7_jump_tick_witness :
    ∃ robot', (NewStripe 0 5 0 10 false 0).ExecuteCommand
        ⟨1, 1, ["MR", "GOTO 42"], 1⟩ = .ok robot' ∧
      robot' = ⟨1, 1, ["MR", "GOTO 42"], robot'.PC⟩ ∧
      robot'.Position = (1 : Int) ∧
      (minInt < 42 ∧ (42 : Int) ≤ maxInt →
        robot'.PC = 42 - 1 ∧
        ((0 ≤ robot'.PC ∧ robot'.PC < robot'.Program.length) ↔
          ((1 : Int) ≤ 42 ∧ (42 : Int) ≤ (["MR", "GOTO 42"] : List String).length))) ∧
      ((42 : Int) = minInt → robot'.PC = maxInt) ∧
      ((42 : Int) < minInt ∨ maxInt < 42 → robot'.PC = -1) :=
  C7_jump_tick (NewStripe 0 5 0 10 false 0) ⟨1, 1, ["MR", "GOTO 42"], 1⟩ 42 (by decide)
    (by decide)

/-! ## Step -/

/-- C2. Tie-break: when the tick of robot 1 puts it on the cell of robot 2,
`Step` returns `true` and the stripe differs from the one before the step only
in robot 1: robot 2 (position and program counter), `BlackCell` and `Steps` are
what they were. -/
theorem C2_tie_break (s : Stripe) (r1 r2 r1' : Robot) (hR : s.Robots = [r1, r2])
    (h1 : s.ExecuteCommand r1 = .ok r1') (hp : r1'.Position = r2.Position) :
    ∃ s', s.Step = .ok (true, s') ∧ s'.Robots = [r1', r2] ∧
      s'.BlackCell = s.BlackCell ∧ s'.Steps = s.Steps ∧
      s' = { s with Robots := [r1', r2] } := by
  refine ⟨{ s with Robots := [r1', r2] }, ?_, rfl, rfl, rfl, rfl⟩
  rw [Step_pair s r1 r2 hR, h1]
  simp [hp]

theorem C2_tie_break_witness :
    ∃ s', (NewStripe 4 5 0 10 false 0).Step = .ok (true, s') ∧
      s'.Robots = [{ ID := 1, Position := 5, Program := program, PC := 1 },
        { ID := 2, Position := 5, Program := program, PC := 0 }] ∧
      s'.BlackCell = (NewStripe 4 5 0 10 false 0).BlackCell ∧
      s'.Steps = (NewStripe 4 5 0 10 false 0).Steps ∧
      s' = { NewStripe 4 5 0 10 false 0 with
        Robots := [{ ID := 1, Position := 5, Program := program, PC := 1 },
          { ID := 2, Position := 5, Program := program, PC := 0 }] } :=
  C2_tie_break (NewStripe 4 5 0 10 false 0)
    { ID := 1, Position := 4, Program := program, PC := 0 }
    { ID := 2, Position := 5, Program := program, PC := 0 }
    { ID := 1, Position := 5, Program := program, PC := 1 } rfl rfl rfl

/-! ## Facts about `Step` that hold for every stripe -/

theorem ExecuteCommandAt_fields (s s' : Stripe) (i : Nat) (h : s.ExecuteCommandAt i = .ok s') :
    s' = { s with Robots := s'.Robots } := by
  unfold ExecuteCommandAt at h
  cases h1 : index s.Robots (i : Int) with
  | error e => rw [h1] at h; cases h
  | ok robot =>
    rw [h1] at h
    cases h2 : s.ExecuteCommand robot with
    | error e => simp [bind, Except.bind, h2] at h
    | ok robot' =>
      simp only [bind, Except.bind, h2, pure, Except.pure] at h
      cases h
      rfl

/-- What `Step` leaves behind: only `Robots` and `Steps` can differ, `Steps`
grows by one exactly when `false` is returned, and the returned value is the
comparison of the two positions in the stripe left behind. -/
theorem Step_spec (s s' : Stripe) (b : Bool) (h : s.Step = .ok (b, s')) :
    s' = { s with Robots := s'.Robots, Steps := if b then s.Steps else s.Steps + 1 } ∧
      s'.samePosition = .ok b := by
  unfold Step at h
  cases h1 : s.ExecuteCommandAt 0 with
  | error e => simp [bind, Except.bind, h1] at h
  | ok s1 =>
    have f1 := ExecuteCommandAt_fields s s1 0 h1
    cases hp1 : s1.samePosition with
    | error e => simp [bind, Except.bind, h1, hp1] at h
    | ok m1 =>
      cases m1 with
      | true =>
        simp only [bind, Except.bind, h1, hp1, pure, Except.pure, ↓reduceIte] at h
        cases h
        refine ⟨?_, hp1⟩
        rw [f1]
        rfl
      | false =>
        simp only [bind, Except.bind, h1, hp1, pure, Except.pure] at h
        cases h2 : s1.ExecuteCommandAt 1 with
        | error e => simp [h2] at h
        | ok s2 =>
          have f2 := ExecuteCommandAt_fields s1 s2 1 h2
          cases hp2 : s2.samePosition with
          | error e => simp [h2, hp2] at h
          | ok m2 =>
            cases m2 with
            | true =>
              simp only [h2, hp2, ↓reduceIte] at h
              cases h
              refine ⟨?_, hp2⟩
              rw [f2, f1]
              rfl
            | false =>
              simp only [h2, hp2] at h
              cases h
              refine ⟨?_, ?_⟩
              · rw [f2, f1]
                rfl
              · exact hp2

theorem Step_steps (s s' : Stripe) (b : Bool) (h : s.Step = .ok (b, s')) :
    s'.Steps = (if b then s.Steps else s.Steps + 1) ∧ s'.MaxSteps = s.MaxSteps ∧
      s'.ShowDisplay = s.ShowDisplay ∧ s'.BlackCell = s.BlackCell ∧
      s'.DelayMs = s.DelayMs := by
  have h1 := (Step_spec s s' b h).1
  rw [h1]
  exact ⟨rfl, rfl, rfl, rfl, rfl⟩

/-! ## The loop of `Run` -/

theorem runLoop_met (fuel : Nat) (s : Stripe) : runLoop fuel s true = .ok (true, s) := by
  cases fuel <;> simp [runLoop, pure, Except.pure]

theorem runLoop_done (fuel : Nat) (s : Stripe) (met : Bool) (h : ¬ s.Steps < s.MaxSteps) :
    runLoop fuel s met = .ok (met, s) := by
  cases fuel <;> simp [runLoop, pure, Except.pure, h]

theorem runLoop_succ (fuel : Nat) (s : Stripe) (h : s.Steps < s.MaxSteps) :
    runLoop (fuel + 1) s false =
      match s.Step with
      | .error e => .error e
      | .ok (met, s') =>
        if s'.ShowDisplay then
          match s'.DisplayState with
          | .error e => .error e
          | .ok _ => runLoop fuel s' met
        else runLoop fuel s' met := by
  rw [runLoop]
  simp only [h, decide_True, Bool.not_false, Bool.and_self, ↓reduceIte, bind, Except.bind]
  cases s.Step with
  | error e => rfl
  | ok r =>
    obtain ⟨met, s'⟩ := r
    simp only
    cases s'.ShowDisplay with
    | true =>
      simp only [↓reduceIte]
      cases s'.DisplayState <;> rfl
    | false => simp [pure, Except.pure]

theorem JumpsInRange_mem (prog : List String) (h : JumpsInRange prog = true) (cmd : String)
    (hm : cmd ∈ prog) (hg : hasGotoPrefix cmd = true) :
    1 ≤ sscanfGoto cmd.toList ∧ sscanfGoto cmd.toList ≤ prog.length := by
  unfold JumpsInRange at h
  rw [List.all_eq_true] at h
  have := h cmd hm
  simpa [hg] using this

theorem emod_valid (a : Int) (n : Nat) (hn : 0 < n) :
    0 ≤ a % (n : Int) ∧ a % (n : Int) < n :=
  ⟨Int.emod_nonneg _ (by omega), Int.emod_lt_of_pos _ (by omega)⟩

/-- One tick of a robot with a valid counter in a program whose jumps are in
range: it succeeds, the counter is valid again, the program is the same and the
robot moved by at most one cell. -/
theorem ExecuteCommand_valid (s : Stripe) (robot : Robot)
    (hj : JumpsInRange robot.Program = true) (hv : ValidPC robot) :
    ∃ robot', s.ExecuteCommand robot = .ok robot' ∧ ValidPC robot' ∧
      robot'.Program = robot.Program ∧ robot'.ID = robot.ID := by
  obtain ⟨h0, hlt⟩ := hv
  obtain ⟨cmd, -, hc⟩ := index_eq_ok robot.Program robot.PC h0 hlt
  have hn : 0 < robot.Program.length := by omega
  by_cases c1 : cmd = "ML"
  · subst c1
    exact ⟨_, ExecuteCommand_ML s robot h0 hc, emod_valid _ _ hn, rfl, rfl⟩
  by_cases c2 : cmd = "MR"
  · subst c2
    exact ⟨_, ExecuteCommand_MR s robot h0 hc, emod_valid _ _ hn, rfl, rfl⟩
  by_cases c3 : cmd = "IF FLAG"
  · subst c3
    refine ⟨_, ExecuteCommand_IF s robot h0 hc, ?_, rfl, rfl⟩
    unfold ValidPC
    simp only
    split_ifs
    · exact emod_valid _ _ hn
    · exact emod_valid _ _ hn
  cases hg : hasGotoPrefix cmd with
  | true =>
    refine ⟨_, ExecuteCommand_GOTO s robot cmd h0 hc hg, ?_, rfl, rfl⟩
    have := JumpsInRange_mem _ hj cmd (List.getElem?_mem hc) hg
    have hr := sscanfGoto_range cmd.toList
    unfold ValidPC
    simp only
    rw [wrapInt_eq _ (by unfold minInt; omega) (by omega)]
    omega
  | false =>
    exact ⟨_, ExecuteCommand_other s robot cmd h0 hc c1 c2 c3 hg, emod_valid _ _ hn, rfl, rfl⟩

theorem WellFormed_iff (s : Stripe) :
    WellFormed s ↔ ∃ r1 r2, s.Robots = [r1, r2] ∧ ValidPC r1 ∧ ValidPC r2 ∧
      JumpsInRange r1.Program = true ∧ JumpsInRange r2.Program = true := by
  unfold WellFormed
  constructor
  · intro h
    split at h
    · exact ⟨_, _, by assumption, h⟩
    · exact absurd h id
  · rintro ⟨r1, r2, hR, h⟩
    rw [hR]
    exact h

theorem DisplayState_pair (s : Stripe) (r1 r2 : Robot) (hR : s.Robots = [r1, r2])
    (h1 : ValidPC r1) (h2 : ValidPC r2) : s.DisplayState = .ok () := by
  obtain ⟨c1, e1, -⟩ := index_eq_ok r1.Program r1.PC h1.1 h1.2
  obtain ⟨c2, e2, -⟩ := index_eq_ok r2.Program r2.PC h2.1 h2.2
  unfold DisplayState
  rw [hR]
  simp [index_pair_zero, index_pair_one, bind, Except.bind, e1, e2, pure, Except.pure,
    List.forM, forM]

theorem DisplayState_wf (s : Stripe) (h : WellFormed s) : s.DisplayState = .ok () := by
  obtain ⟨r1, r2, hR, h1, h2, -, -⟩ := (WellFormed_iff s).1 h
  exact DisplayState_pair s r1 r2 hR h1 h2

/-- On a well-formed stripe `Step` does not panic and leaves a well-formed
stripe with the same two programs. -/
theorem Step_wf (s : Stripe) (h : WellFormed s) :
    ∃ b s', s.Step = .ok (b, s') ∧ WellFormed s' ∧
      s'.Robots.map Robot.Program = s.Robots.map Robot.Program := by
  obtain ⟨r1, r2, hR, h1, h2, j1, j2⟩ := (WellFormed_iff s).1 h
  obtain ⟨r1', e1, v1, p1, -⟩ := ExecuteCommand_valid s r1 j1 h1
  obtain ⟨r2', e2, v2, p2, -⟩ := ExecuteCommand_valid s r2 j2 h2
  rw [Step_pair s r1 r2 hR, e1, e2, hR]
  simp only
  split_ifs
  · exact ⟨_, _, rfl, (WellFormed_iff _).2 ⟨r1', r2, rfl, v1, h2, p1 ▸ j1, j2⟩, by simp [p1]⟩
  · exact ⟨_, _, rfl, (WellFormed_iff _).2 ⟨r1', r2', rfl, v1, v2, p1 ▸ j1, p2 ▸ j2⟩,
      by simp [p1, p2]⟩
  · exact ⟨_, _, rfl, (WellFormed_iff _).2 ⟨r1', r2', rfl, v1, v2, p1 ▸ j1, p2 ▸ j2⟩,
      by simp [p1, p2]⟩

theorem Reachable_wf (s0 s : Stripe) (h0 : WellFormed s0) (hr : Reachable s0 s) :
    WellFormed s ∧ s.Robots.map Robot.Program = s0.Robots.map Robot.Program := by
  induction hr with
  | start => exact ⟨h0, rfl⟩
  | step hprev hstep ih =>
    obtain ⟨b, s'', e, w, p⟩ := Step_wf _ ih.1
    rw [e] at hstep
    cases hstep
    exact ⟨w, p.trans ih.2⟩

/-- The loop never panics on a well-formed stripe, and what it returns is
reachable by `Step`. -/
theorem runLoop_wf (fuel : Nat) :
    ∀ (s : Stripe) (met : Bool), WellFormed s →
      ∃ b s', runLoop fuel s met = .ok (b, s') ∧ Reachable s s' := by
  induction fuel with
  | zero => intro s met _; exact ⟨met, s, rfl, .start⟩
  | succ fuel ih =>
    intro s met h
    cases met with
    | true => exact ⟨true, s, runLoop_met _ s, .start⟩
    | false =>
      by_cases hlt : s.Steps < s.MaxSteps
      · obtain ⟨b, s', e, w, -⟩ := Step_wf s h
        obtain ⟨b', s'', e', r'⟩ := ih s' b w
        refine ⟨b', s'', ?_, ?_⟩
        · rw [runLoop_succ fuel s hlt, e]
          simp only [DisplayState_wf s' w, e', ite_self]
        · have hs : Reachable s s' := .step .start e
          clear e' ih
          induction r' with
          | start => exact hs
          | step _ hstep ih2 => exact .step ih2 hstep
      · exact ⟨false, s, runLoop_done _ s false hlt, .start⟩

theorem Run_wf (s : Stripe) (h : WellFormed s) :
    ∃ b s', s.Run = .ok (b, s') ∧ Reachable s s' := by
  obtain ⟨b, s', e, r⟩ := runLoop_wf (s.MaxSteps - s.Steps).toNat s false h
  refine ⟨b, s', ?_, r⟩
  unfold Run
  rw [DisplayState_wf s h]
  exact e

theorem program_JumpsInRange : JumpsInRange program = true := by decide

theorem NewStripe_wf (p1 p2 bc N : Int) (sd : Bool) (d : Int) :
    WellFormed (NewStripe p1 p2 bc N sd d) := by
  have hv : (0 : Int) ≤ 0 ∧ (0 : Int) < (program.length : Int) := by decide
  exact (WellFormed_iff _).2 ⟨_, _, rfl, hv, hv, program_JumpsInRange, program_JumpsInRange⟩

/-! ## Runs as sequences of steps -/

theorem stepsNotMet_cons (k : Nat) (s s' sk : Stripe) (h : s.Step = .ok (false, s'))
    (hk : stepsNotMet k s' = some sk) : stepsNotMet (k + 1) s = some sk := by
  rw [stepsNotMet, h]
  exact hk

theorem stepsNotMet_succ_inv (k : Nat) (s sk : Stripe) (h : stepsNotMet (k + 1) s = some sk) :
    ∃ s', s.Step = .ok (false, s') ∧ stepsNotMet k s' = some sk := by
  rw [stepsNotMet] at h
  split at h
  · exact ⟨_, by assumption, h⟩
  · cases h

/-- As long as the budget lasts, `k` steps that do not meet are `k` iterations
of the loop. -/
theorem runLoop_of_stepsNotMet (k : Nat) :
    ∀ (fuel : Nat) (s sk : Stripe), WellFormed s → stepsNotMet k s = some sk →
      s.Steps + k ≤ s.MaxSteps → runLoop (k + fuel) s false = runLoop fuel sk false := by
  induction k with
  | zero =>
    intro fuel s sk _ h _
    cases h
    rw [Nat.zero_add]
  | succ k ih =>
    intro fuel s sk hw h hle
    obtain ⟨s', e, hk⟩ := stepsNotMet_succ_inv k s sk h
    obtain ⟨b, s'', e', w', -⟩ := Step_wf s hw
    rw [e] at e'
    cases e'
    obtain ⟨hst, hmx, -⟩ := Step_steps s s' false e
    have hlt : s.Steps < s.MaxSteps := by push_cast at hle; omega
    have : k + 1 + fuel = (k + fuel) + 1 := by omega
    rw [this, runLoop_succ _ s hlt, e]
    simp only [DisplayState_wf s' w', ite_self]
    apply ih fuel s' sk w' hk
    rw [hst, hmx]
    simp only [Bool.false_eq_true, ↓reduceIte]
    push_cast at hle
    omega

/-- A run that ends with `robotsMet` is a sequence of steps that returned
`false` followed by one step that returned `true`. -/
theorem runLoop_true_trace (fuel : Nat) :
    ∀ (s sf : Stripe), runLoop fuel s false = .ok (true, sf) →
      ∃ k sk, stepsNotMet k s = some sk ∧ sk.Step = .ok (true, sf) ∧
        sf.Steps = s.Steps + k ∧ sk.Steps < sk.MaxSteps ∧ sk.MaxSteps = s.MaxSteps := by
  induction fuel with
  | zero =>
    intro s sf h
    simp [runLoop, pure, Except.pure] at h
  | succ fuel ih =>
    intro s sf h
    by_cases hlt : s.Steps < s.MaxSteps
    · rw [runLoop_succ fuel s hlt] at h
      cases e : s.Step with
      | error err => rw [e] at h; cases h
      | ok r =>
        obtain ⟨met, s'⟩ := r
        rw [e] at h
        simp only at h
        have h' : runLoop fuel s' met = .ok (true, sf) := by
          split at h
          · split at h
            · cases h
            · exact h
          · exact h
        obtain ⟨hst, hmx, -⟩ := Step_steps s s' met e
        cases met with
        | true =>
          rw [runLoop_met] at h'
          cases h'
          refine ⟨0, s, rfl, e, ?_, hlt, rfl⟩
          rw [hst]
          simp
        | false =>
          obtain ⟨k, sk, hk, hs, hsteps, hsk, hmax⟩ := ih s' sf h'
          refine ⟨k + 1, sk, stepsNotMet_cons k s s' sk e hk, hs, ?_, hsk, hmax.trans hmx⟩
          rw [hsteps, hst]
          simp only [Bool.false_eq_true, ↓reduceIte]
          push_cast
          omega
    · rw [runLoop_done _ s false hlt] at h
      cases h

theorem Run_ok_loop (s : Stripe) (r : Bool × Stripe) (h : s.Run = .ok r) :
    s.DisplayState = .ok () ∧ runLoop (s.MaxSteps - s.Steps).toNat s false = .ok r := by
  unfold Run at h
  cases hd : s.DisplayState with
  | error e => simp [hd, bind, Except.bind] at h
  | ok u => exact ⟨rfl, by simpa [hd, bind, Except.bind] using h⟩

/-- The eighteen steps of scenario A that do not meet. -/
theorem scenarioA_steps (N d : Int) (sd : Bool) :
    stepsNotMet 18 (NewStripe (-2) 2 0 N sd d) =
      some (Stripe.mk [⟨1, 5, program, 6⟩, ⟨2, 7, program, 4⟩] 0 18 N sd d) := by
  refine stepsNotMet_cons 17 _ (Stripe.mk [⟨1, (-1), program, 1⟩, ⟨2, 3, program, 1⟩] 0 1 N sd d) _ (by rfl) ?_
  refine stepsNotMet_cons 16 _ (Stripe.mk [⟨1, (-1), program, 3⟩, ⟨2, 3, program, 3⟩] 0 2 N sd d) _ (by rfl) ?_
  refine stepsNotMet_cons 15 _ (Stripe.mk [⟨1, 0, program, 4⟩, ⟨2, 4, program, 4⟩] 0 3 N sd d) _ (by rfl) ?_
  refine stepsNotMet_cons 14 _ (Stripe.mk [⟨1, (-1), program, 5⟩, ⟨2, 3, program, 5⟩] 0 4 N sd d) _ (by rfl) ?_
  refine stepsNotMet_cons 13 _ (Stripe.mk [⟨1, (-1), program, 0⟩, ⟨2, 3, program, 0⟩] 0 5 N sd d) _ (by rfl) ?_
  refine stepsNotMet_cons 12 _ (Stripe.mk [⟨1, 0, program, 1⟩, ⟨2, 4, program, 1⟩] 0 6 N sd d) _ (by rfl) ?_
  refine stepsNotMet_cons 11 _ (Stripe.mk [⟨1, 0, program, 2⟩, ⟨2, 4, program, 3⟩] 0 7 N sd d) _ (by rfl) ?_
  refine stepsNotMet_cons 10 _ (Stripe.mk [⟨1, 0, program, 6⟩, ⟨2, 5, program, 4⟩] 0 8 N sd d) _ (by rfl) ?_
  refine stepsNotMet_cons 9 _ (Stripe.mk [⟨1, 1, program, 7⟩, ⟨2, 4, program, 5⟩] 0 9 N sd d) _ (by rfl) ?_
  refine stepsNotMet_cons 8 _ (Stripe.mk [⟨1, 1, program, 6⟩, ⟨2, 4, program, 0⟩] 0 10 N sd d) _ (by rfl) ?_
  refine stepsNotMet_cons 7 _ (Stripe.mk [⟨1, 2, program, 7⟩, ⟨2, 5, program, 1⟩] 0 11 N sd d) _ (by rfl) ?_
  refine stepsNotMet_cons 6 _ (Stripe.mk [⟨1, 2, program, 6⟩, ⟨2, 5, program, 3⟩] 0 12 N sd d) _ (by rfl) ?_
  refine stepsNotMet_cons 5 _ (Stripe.mk [⟨1, 3, program, 7⟩, ⟨2, 6, program, 4⟩] 0 13 N sd d) _ (by rfl) ?_
  refine stepsNotMet_cons 4 _ (Stripe.mk [⟨1, 3, program, 6⟩, ⟨2, 5, program, 5⟩] 0 14 N sd d) _ (by rfl) ?_
  refine stepsNotMet_cons 3 _ (Stripe.mk [⟨1, 4, program, 7⟩, ⟨2, 5, program, 0⟩] 0 15 N sd d) _ (by rfl) ?_
  refine stepsNotMet_cons 2 _ (Stripe.mk [⟨1, 4, program, 6⟩, ⟨2, 6, program, 1⟩] 0 16 N sd d) _ (by rfl) ?_
  refine stepsNotMet_cons 1 _ (Stripe.mk [⟨1, 5, program, 7⟩, ⟨2, 6, program, 3⟩] 0 17 N sd d) _ (by rfl) ?_
  refine stepsNotMet_cons 0 _ (Stripe.mk [⟨1, 5, program, 6⟩, ⟨2, 7, program, 4⟩] 0 18 N sd d) _ (by rfl) ?_
  rfl

/-- C3. Scenario A: with the built-in program, robot 1 at `-2`, robot 2 at `2`,
black cell `0` and any budget `N ≥ 19` (display on or off, any delay), `Run`
returns `true` with both robots on cell `6` and `Steps = 18`. -/
theorem C3_scenario_A (N d : Int) (sd : Bool) (hN : 19 ≤ N) :
    (NewStripe (-2) 2 0 N sd d).Run =
      .ok (true, Stripe.mk [⟨1, 6, program, 7⟩, ⟨2, 6, program, 5⟩] 0 18 N sd d) := by
  have hw := NewStripe_wf (-2) 2 0 N sd d
  have hfuel : ((NewStripe (-2) 2 0 N sd d).MaxSteps
      - (NewStripe (-2) 2 0 N sd d).Steps).toNat = 18 + ((N.toNat - 19) + 1) := by
    show (N - 0).toNat = _
    omega
  have hlast : (Stripe.mk [⟨1, 5, program, 6⟩, ⟨2, 7, program, 4⟩] 0 18 N sd d).Step =
      .ok (true, Stripe.mk [⟨1, 6, program, 7⟩, ⟨2, 6, program, 5⟩] 0 18 N sd d) := rfl
  have hv : (0 : Int) ≤ 7 ∧ (7 : Int) < (program.length : Int) := by decide
  have hv' : (0 : Int) ≤ 5 ∧ (5 : Int) < (program.length : Int) := by decide
  have hdisp := DisplayState_pair
    (Stripe.mk [⟨1, 6, program, 7⟩, ⟨2, 6, program, 5⟩] 0 18 N sd d) _ _ rfl hv hv'
  unfold Run
  rw [DisplayState_wf _ hw, hfuel]
  simp only [bind, Except.bind]
  rw [runLoop_of_stepsNotMet 18 _ _ _ hw (scenarioA_steps N d sd)
    (by show (0 : Int) + (18 : Nat) ≤ N; push_cast; omega)]
  rw [runLoop_succ _ _ (by show (18 : Int) < N; omega), hlast]
  simp only [hdisp, ite_self, runLoop_met]

theorem C3_scenario_A_witness :
    (NewStripe (-2) 2 0 19 false 0).Run =
      .ok (true, Stripe.mk [⟨1, 6, program, 7⟩, ⟨2, 6, program, 5⟩] 0 18 19 false 0) :=
  C3_scenario_A 19 0 false (by decide)

/-- C4. Step-count exclusion.  When `Run`, started with `Steps = 0`, returns
`true`, the run is `Steps` executions of `Step` that returned `false` followed
by one execution that returned `true` and is not counted (`Steps + 1`
executions in all); the reported `Steps` is below `MaxSteps`, and the reported
position `Robots[0].Position` is the position of both robots. -/
theorem C4_step_count_exclusion (s sf : Stripe) (h0 : s.Steps = 0)
    (hrun : s.Run = .ok (true, sf)) :
    ∃ (k : Nat) (sk : Stripe), stepsNotMet k s = some sk ∧ sk.Step = .ok (true, sf) ∧
      sf.Steps = k ∧ sf.Steps = sk.Steps ∧ sf.Steps < sf.MaxSteps ∧
      sf.MaxSteps = s.MaxSteps ∧
      ∃ r0 r1, index sf.Robots 0 = .ok r0 ∧ index sf.Robots 1 = .ok r1 ∧
        r0.Position = r1.Position := by
  obtain ⟨-, hloop⟩ := Run_ok_loop s _ hrun
  obtain ⟨k, sk, hk, hs, hsteps, hlt, hmax⟩ := runLoop_true_trace _ s sf hloop
  obtain ⟨hst, hmx, -⟩ := Step_steps sk sf true hs
  have hsame := (Step_spec sk sf true hs).2
  simp only [↓reduceIte] at hst
  refine ⟨k, sk, hk, hs, by rw [hsteps, h0]; simp, hst, by rw [hst, hmx]; exact hlt,
    hmx.trans hmax, ?_⟩
  unfold samePosition at hsame
  cases e0 : index sf.Robots 0 with
  | error e => simp [e0, bind, Except.bind] at hsame
  | ok r0 =>
    cases e1 : index sf.Robots 1 with
    | error e => simp [e0, e1, bind, Except.bind] at hsame
    | ok r1 =>
      refine ⟨r0, r1, rfl, rfl, ?_⟩
      simpa [e0, e1, bind, Except.bind, pure, Except.pure] using hsame

theorem C4_step_count_exclusion_witness :
    ∃ (k : Nat) (sk : Stripe),
      stepsNotMet k (NewStripe (-2) 2 0 19 false 0) = some sk ∧
      sk.Step = .ok (true, Stripe.mk [⟨1, 6, program, 7⟩, ⟨2, 6, program, 5⟩] 0 18 19 false 0) ∧
      (18 : Int) = k ∧ (18 : Int) = sk.Steps ∧ (18 : Int) < 19 ∧
      (19 : Int) = (NewStripe (-2) 2 0 19 false 0).MaxSteps ∧
      ∃ r0 r1,
        index ([⟨1, 6, program, 7⟩, ⟨2, 6, program, 5⟩] : List Robot) 0 = .ok r0 ∧
        index ([⟨1, 6, program, 7⟩, ⟨2, 6, program, 5⟩] : List Robot) 1 = .ok r1 ∧
        r0.Position = r1.Position :=
  C4_step_count_exclusion (NewStripe (-2) 2 0 19 false 0)
    (Stripe.mk [⟨1, 6, program, 7⟩, ⟨2, 6, program, 5⟩] 0 18 19 false 0) rfl rfl

/-! ## The program-counter invariant -/

/-- C8. Program-counter invariant.  In a program whose jumps all name lines of
the program (the built-in program is one), a tick from a valid counter succeeds
and leaves a valid counter and the same program.  Hence every stripe `t` that
executions of `Step` reach from `NewStripe` has two robots running the built-in
program with valid counters: the fetches `Program[PC]` succeed, `Step` and
`DisplayState` do not panic there, and `Run` from `NewStripe` returns. -/
theorem C8_pc_invariant (s : Stripe) (robot : Robot)
    (hj : JumpsInRange robot.Program = true) (hv : ValidPC robot)
    (p1 p2 bc N : Int) (sd : Bool) (d : Int) (t : Stripe)
    (hr : Reachable (NewStripe p1 p2 bc N sd d) t) :
    (∃ robot', s.ExecuteCommand robot = .ok robot' ∧ ValidPC robot' ∧
      robot'.Program = robot.Program) ∧
    JumpsInRange program = true ∧
    (∃ r1 r2, t.Robots = [r1, r2] ∧ r1.Program = program ∧ r2.Program = program ∧
      ValidPC r1 ∧ ValidPC r2 ∧
      (∃ c1, index r1.Program r1.PC = .ok c1) ∧ (∃ c2, index r2.Program r2.PC = .ok c2) ∧
      (∃ b t', t.Step = .ok (b, t')) ∧ t.DisplayState = .ok ()) ∧
    (∃ b sf, (NewStripe p1 p2 bc N sd d).Run = .ok (b, sf) ∧
      Reachable (NewStripe p1 p2 bc N sd d) sf) := by
  obtain ⟨robot', e, v, p, -⟩ := ExecuteCommand_valid s robot hj hv
  obtain ⟨hw, hp⟩ := Reachable_wf _ t (NewStripe_wf p1 p2 bc N sd d) hr
  obtain ⟨r1, r2, hR, v1, v2, -, -⟩ := (WellFormed_iff t).1 hw
  obtain ⟨b, t', est, -, -⟩ := Step_wf t hw
  obtain ⟨c1, f1, -⟩ := index_eq_ok r1.Program r1.PC v1.1 v1.2
  obtain ⟨c2, f2, -⟩ := index_eq_ok r2.Program r2.PC v2.1 v2.2
  rw [hR] at hp
  simp only [NewStripe, List.map_cons, List.map_nil, List.cons.injEq, and_true] at hp
  exact ⟨⟨robot', e, v, p⟩, program_JumpsInRange,
    ⟨r1, r2, hR, hp.1, hp.2, v1, v2, ⟨c1, f1⟩, ⟨c2, f2⟩, ⟨b, t', est⟩, DisplayState_wf t hw⟩,
    Run_wf _ (NewStripe_wf p1 p2 bc N sd d)⟩

theorem C8_pc_invariant_witness :
    (∃ robot', (NewStripe 0 5 0 10 false 0).ExecuteCommand ⟨1, 3, program, 5⟩ = .ok robot' ∧
      ValidPC robot' ∧ robot'.Program = program) ∧
    JumpsInRange program = true ∧
    (∃ r1 r2, (NewStripe (-5) 5 0 100 true 200).Robots = [r1, r2] ∧
      r1.Program = program ∧ r2.Program = program ∧ ValidPC r1 ∧ ValidPC r2 ∧
      (∃ c1, index r1.Program r1.PC = .ok c1) ∧ (∃ c2, index r2.Program r2.PC = .ok c2) ∧
      (∃ b t', (NewStripe (-5) 5 0 100 true 200).Step = .ok (b, t')) ∧
      (NewStripe (-5) 5 0 100 true 200).DisplayState = .ok ()) ∧
    (∃ b sf, (NewStripe (-5) 5 0 100 true 200).Run = .ok (b, sf) ∧
      Reachable (NewStripe (-5) 5 0 100 true 200) sf) :=
  C8_pc_invariant (NewStripe 0 5 0 10 false 0) ⟨1, 3, program, 5⟩ (by decide)
    ⟨by decide, by decide⟩ (-5) 5 0 100 true 200 (NewStripe (-5) 5 0 100 true 200) .start

/-- A run that ends without `robotsMet` and started within the budget has used
the budget up: it is `MaxSteps - Steps` executions of `Step` that all returned
`false`. -/
theorem runLoop_false_trace (fuel : Nat) :
    ∀ (s sf : Stripe), (s.MaxSteps - s.Steps).toNat ≤ fuel → s.Steps ≤ s.MaxSteps →
      runLoop fuel s false = .ok (false, sf) →
      stepsNotMet (s.MaxSteps - s.Steps).toNat s = some sf ∧ sf.Steps = s.MaxSteps ∧
        sf.MaxSteps = s.MaxSteps := by
  induction fuel with
  | zero =>
    intro s sf hf hle h
    have hz : (s.MaxSteps - s.Steps).toNat = 0 := by omega
    simp only [runLoop, pure, Except.pure, Except.ok.injEq, Prod.mk.injEq, true_and] at h
    subst h
    rw [hz]
    exact ⟨rfl, by omega, rfl⟩
  | succ fuel ih =>
    intro s sf hf hle h
    by_cases hlt : s.Steps < s.MaxSteps
    · rw [runLoop_succ fuel s hlt] at h
      cases e : s.Step with
      | error err => rw [e] at h; cases h
      | ok r =>
        obtain ⟨met, s'⟩ := r
        rw [e] at h
        simp only at h
        have h' : runLoop fuel s' met = .ok (false, sf) := by
          split at h
          · split at h
            · cases h
            · exact h
          · exact h
        obtain ⟨hst, hmx, -⟩ := Step_steps s s' met e
        cases met with
        | true =>
          rw [runLoop_met] at h'
          cases h'
        | false =>
          simp only [Bool.false_eq_true, ↓reduceIte] at hst
          have hk : (s.MaxSteps - s.Steps).toNat = (s'.MaxSteps - s'.Steps).toNat + 1 := by
            rw [hst, hmx]; omega
          obtain ⟨t1, t2, t3⟩ := ih s' sf (by omega) (by rw [hst, hmx]; omega) h'
          rw [hk]
          exact ⟨stepsNotMet_cons _ s s' sf e t1, t2.trans hmx, t3.trans hmx⟩
    · rw [runLoop_done _ s false hlt] at h
      cases h
      have hz : (s.MaxSteps - s.Steps).toNat = 0 := by omega
      rw [hz]
      exact ⟨rfl, by omega, rfl⟩

/-- C11. Budget exhaustion.  When `Run`, started with `Steps = 0` and a positive
budget `N = MaxSteps`, returns `false`, the run is exactly `N` executions of
`Step`, all of which returned `false`, and `Steps = N` at the end.  Scenario B:
the built-in program with robots at `-2` and `2`, black cell `0` and budget `1`
returns `false` with `Steps = 1`. -/
theorem C11_budget_exhaustion (s sf : Stripe) (N : Nat) (h0 : s.Steps = 0)
    (hN : s.MaxSteps = N) (hpos : 0 < N) (hrun : s.Run = .ok (false, sf)) :
    stepsNotMet N s = some sf ∧ sf.Steps = N ∧ sf.MaxSteps = N ∧
    ∀ (sd : Bool) (d : Int), (NewStripe (-2) 2 0 1 sd d).Run =
      .ok (false, Stripe.mk [⟨1, -1, program, 1⟩, ⟨2, 3, program, 1⟩] 0 1 1 sd d) := by
  obtain ⟨-, hloop⟩ := Run_ok_loop s _ hrun
  obtain ⟨t1, t2, t3⟩ := runLoop_false_trace _ s sf (le_refl _) (by rw [h0, hN]; omega) hloop
  have hk : (s.MaxSteps - s.Steps).toNat = N := by rw [h0, hN]; omega
  rw [hk] at t1
  refine ⟨t1, t2.trans hN, t3.trans hN, ?_⟩
  intro sd d
  cases sd <;> rfl

theorem C11_budget_exhaustion_witness :
    stepsNotMet 1 (NewStripe (-2) 2 0 1 false 0) =
      some (Stripe.mk [⟨1, -1, program, 1⟩, ⟨2, 3, program, 1⟩] 0 1 1 false 0) ∧
    (1 : Int) = (1 : Nat) ∧ (1 : Int) = (1 : Nat) ∧
    ∀ (sd : Bool) (d : Int), (NewStripe (-2) 2 0 1 sd d).Run =
      .ok (false, Stripe.mk [⟨1, -1, program, 1⟩, ⟨2, 3, program, 1⟩] 0 1 1 sd d) :=
  C11_budget_exhaustion (NewStripe (-2) 2 0 1 false 0)
    (Stripe.mk [⟨1, -1, program, 1⟩, ⟨2, 3, program, 1⟩] 0 1 1 false 0) 1 rfl rfl
    (by decide) rfl

/-! ## Positions move by at most one cell -/

/-- Whatever the program, a tick keeps the program and the identifier and moves
the robot by at most one cell, in 64-bit arithmetic. -/
theorem ExecuteCommand_pos_wrap (s : Stripe) (robot robot' : Robot)
    (h : s.ExecuteCommand robot = .ok robot') :
    robot'.Program = robot.Program ∧ robot'.ID = robot.ID ∧
      (robot'.Position = robot.Position ∨ robot'.Position = wrapInt (robot.Position + 1) ∨
        robot'.Position = wrapInt (robot.Position - 1)) := by
  unfold ExecuteCommand at h
  cases hf : index robot.Program robot.PC with
  | error e => rw [hf] at h; cases h
  | ok cmd =>
    rw [hf] at h
    simp only [bind, Except.bind, pure, Except.pure] at h
    split at h
    · cases h; exact ⟨rfl, rfl, Or.inr (Or.inr rfl)⟩
    · cases h; exact ⟨rfl, rfl, Or.inr (Or.inl rfl)⟩
    · split at h <;> (cases h; exact ⟨rfl, rfl, Or.inl rfl⟩)
    · split at h <;> (cases h; exact ⟨rfl, rfl, Or.inl rfl⟩)

/-- Away from the two ends of the 64-bit range a tick moves the robot by at
most one cell. -/
theorem ExecuteCommand_pos (s : Stripe) (robot robot' : Robot)
    (h : s.ExecuteCommand robot = .ok robot')
    (hlo : minInt < robot.Position) (hhi : robot.Position < maxInt) :
    robot'.Program = robot.Program ∧ robot'.ID = robot.ID ∧
      (robot'.Position = robot.Position ∨ robot'.Position = robot.Position + 1 ∨
        robot'.Position = robot.Position - 1) := by
  obtain ⟨p, i, m⟩ := ExecuteCommand_pos_wrap s robot robot' h
  rw [wrapInt_eq (robot.Position + 1) (by omega) (by omega),
    wrapInt_eq (robot.Position - 1) (by omega) (by omega)] at m
  exact ⟨p, i, m⟩

/-- What a step that returns `false` leaves: both robots ticked, on different
cells, each at most one cell from where it was, and robot 1 was not on the cell
of robot 2 between the two ticks. -/
theorem Step_false_pair (s s' : Stripe) (r1 r2 : Robot) (hR : s.Robots = [r1, r2])
    (h : s.Step = .ok (false, s')) :
    ∃ r1' r2', s.ExecuteCommand r1 = .ok r1' ∧ s.ExecuteCommand r2 = .ok r2' ∧
      s' = { s with Robots := [r1', r2'], Steps := s.Steps + 1 } ∧
      r1'.Position ≠ r2.Position ∧ r1'.Position ≠ r2'.Position := by
  rw [Step_pair s r1 r2 hR] at h
  cases e1 : s.ExecuteCommand r1 with
  | error e => rw [e1] at h; cases h
  | ok r1' =>
    rw [e1] at h
    simp only at h
    by_cases hp : r1'.Position = r2.Position
    · rw [if_pos hp] at h
      cases h
    · rw [if_neg hp] at h
      cases e2 : s.ExecuteCommand r2 with
      | error e => rw [e2] at h; cases h
      | ok r2' =>
        rw [e2] at h
        simp only at h
        by_cases hq : r1'.Position = r2'.Position
        · rw [if_pos hq] at h
          cases h
        · rw [if_neg hq] at h
          cases h
          exact ⟨r1', r2', rfl, rfl, rfl, hp, hq⟩

/-- Away from the ends of the 64-bit range, the order of the two robots on the
line survives a step that returns `false`, and each robot moved by at most one
cell. -/
theorem Step_order (s s' : Stripe) (r1 r2 : Robot) (hR : s.Robots = [r1, r2])
    (h : s.Step = .ok (false, s'))
    (b1 : minInt < r1.Position ∧ r1.Position < maxInt)
    (b2 : minInt < r2.Position ∧ r2.Position < maxInt) :
    ∃ r1' r2', s'.Robots = [r1', r2'] ∧
      (r1'.Position - r1.Position).natAbs ≤ 1 ∧ (r2'.Position - r2.Position).natAbs ≤ 1 ∧
      (r1.Position < r2.Position → r1'.Position < r2'.Position) ∧
      (r2.Position < r1.Position → r2'.Position < r1'.Position) := by
  obtain ⟨r1', r2', e1, e2, hs, hp, hq⟩ := Step_false_pair s s' r1 r2 hR h
  obtain ⟨-, -, m1⟩ := ExecuteCommand_pos s r1 r1' e1 b1.1 b1.2
  obtain ⟨-, -, m2⟩ := ExecuteCommand_pos s r2 r2' e2 b2.1 b2.2
  refine ⟨r1', r2', by rw [hs], by omega, by omega, ?_, ?_⟩ <;> intro hlt <;> omega

/-- The order of the two robots survives `k` steps that return `false`, when
both start at least `k` cells away from the ends of the 64-bit range. -/
theorem stepsNotMet_order (k : Nat) :
    ∀ (s sk : Stripe) (r1 r2 : Robot), s.Robots = [r1, r2] → stepsNotMet k s = some sk →
      minInt + k ≤ r1.Position ∧ r1.Position + k ≤ maxInt →
      minInt + k ≤ r2.Position ∧ r2.Position + k ≤ maxInt →
      ∃ q1 q2, sk.Robots = [q1, q2] ∧
        (r1.Position < r2.Position → q1.Position < q2.Position) ∧
        (r2.Position < r1.Position → q2.Position < q1.Position) := by
  induction k with
  | zero =>
    intro s sk r1 r2 hR h _ _
    cases h
    exact ⟨r1, r2, hR, id, id⟩
  | succ k ih =>
    intro s sk r1 r2 hR h b1 b2
    push_cast at b1 b2
    obtain ⟨s', e, hk⟩ := stepsNotMet_succ_inv k s sk h
    obtain ⟨r1', r2', hR', d1, d2, o1, o2⟩ :=
      Step_order s s' r1 r2 hR e ⟨by omega, by omega⟩ ⟨by omega, by omega⟩
    obtain ⟨q1, q2, hq, p1, p2⟩ := ih s' sk r1' r2' hR' hk (by omega) (by omega)
    exact ⟨q1, q2, hq, fun hlt => p1 (o1 hlt), fun hlt => p2 (o2 hlt)⟩

/-- C18, as stated, fails: robot 2 on the largest cell.  `Step` returns `false`,
robot 1 was left of robot 2 before it and is right of it afterwards, because
`Position++` of robot 2 wrapped around to the smallest cell. -/
theorem C18_counterexample :
    (NewStripe 0 maxInt 0 1 false 0).Step =
      .ok (false, Stripe.mk [⟨1, 1, program, 1⟩, ⟨2, minInt, program, 1⟩] 0 1 1 false 0) ∧
    (0 : Int) < maxInt ∧ ¬ ((1 : Int) < minInt) := by
  refine ⟨?_, by decide, by decide⟩
  rfl

/-- C18, amended.  No overtaking without rendezvous, away from the ends of the
64-bit range.  Whatever the two programs, if the robots stand on different
cells, neither on the smallest or the largest cell, and `Step` returns `false`,
both robots have moved by at most one cell and stand in the same order as
before; and after `k` steps that all returned `false` the order is still the
same when both robots started at least `k` cells from the ends of the range. -/
theorem C18_no_overtaking (s s' : Stripe) (r1 r2 : Robot) (hR : s.Robots = [r1, r2])
    (hne : r1.Position < r2.Position ∨ r2.Position < r1.Position)
    (hstep : s.Step = .ok (false, s')) (k : Nat) (sk : Stripe)
    (hk : stepsNotMet k s = some sk)
    (b1 : minInt < r1.Position ∧ r1.Position < maxInt)
    (b2 : minInt < r2.Position ∧ r2.Position < maxInt)
    (c1 : minInt + k ≤ r1.Position ∧ r1.Position + k ≤ maxInt)
    (c2 : minInt + k ≤ r2.Position ∧ r2.Position + k ≤ maxInt) :
    (∃ r1' r2', s'.Robots = [r1', r2'] ∧
      (r1'.Position - r1.Position).natAbs ≤ 1 ∧ (r2'.Position - r2.Position).natAbs ≤ 1 ∧
      ((r1.Position < r2.Position ∧ r1'.Position < r2'.Position) ∨
        (r2.Position < r1.Position ∧ r2'.Position < r1'.Position))) ∧
    (∃ q1 q2, sk.Robots = [q1, q2] ∧
      ((r1.Position < r2.Position ∧ q1.Position < q2.Position) ∨
        (r2.Position < r1.Position ∧ q2.Position < q1.Position))) := by
  obtain ⟨r1', r2', hR', d1, d2, o1, o2⟩ := Step_order s s' r1 r2 hR hstep b1 b2
  obtain ⟨q1, q2, hq', p1, p2⟩ := stepsNotMet_order k s sk r1 r2 hR hk c1 c2
  refine ⟨⟨r1', r2', hR', d1, d2, ?_⟩, q1, q2, hq', ?_⟩
  · rcases hne with hlt | hlt
    · exact Or.inl ⟨hlt, o1 hlt⟩
    · exact Or.inr ⟨hlt, o2 hlt⟩
  · rcases hne with hlt | hlt
    · exact Or.inl ⟨hlt, p1 hlt⟩
    · exact Or.inr ⟨hlt, p2 hlt⟩

theorem C18_no_overtaking_witness :
    (∃ r1' r2',
      (Stripe.mk [⟨1, -1, program, 1⟩, ⟨2, 3, program, 1⟩] 0 1 19 false 0).Robots
        = [r1', r2'] ∧
      (r1'.Position - (-2)).natAbs ≤ 1 ∧ (r2'.Position - 2).natAbs ≤ 1 ∧
      (((-2 : Int) < 2 ∧ r1'.Position < r2'.Position) ∨
        ((2 : Int) < -2 ∧ r2'.Position < r1'.Position))) ∧
    (∃ q1 q2,
      (Stripe.mk [⟨1, 5, program, 6⟩, ⟨2, 7, program, 4⟩] 0 18 19 false 0).Robots = [q1, q2] ∧
      (((-2 : Int) < 2 ∧ q1.Position < q2.Position) ∨
        ((2 : Int) < -2 ∧ q2.Position < q1.Position))) :=
  C18_no_overtaking (NewStripe (-2) 2 0 19 false 0)
    (Stripe.mk [⟨1, -1, program, 1⟩, ⟨2, 3, program, 1⟩] 0 1 19 false 0)
    ⟨1, -2, program, 0⟩ ⟨2, 2, program, 0⟩ rfl (Or.inl (by decide)) (by rfl) 18
    (Stripe.mk [⟨1, 5, program, 6⟩, ⟨2, 7, program, 4⟩] 0 18 19 false 0)
    (scenarioA_steps 19 0 false)
    ⟨by decide, by decide⟩ ⟨by decide, by decide⟩ ⟨by decide, by decide⟩
    ⟨by decide, by decide⟩

/-! ## Coincident start -/

theorem ticks_succ (s : Stripe) (n : Nat) (robot robot' : Robot)
    (h : s.ExecuteCommand robot = .ok robot') : ticks s (n + 1) robot = ticks s n robot' := by
  rw [ticks, h]

theorem ticks_add (s : Stripe) (a b : Nat) :
    ∀ (robot robot' : Robot), ticks s a robot = .ok robot' →
      ticks s (a + b) robot = ticks s b robot' := by
  induction a with
  | zero =>
    intro robot robot' h
    cases h
    rw [Nat.zero_add]
  | succ a ih =>
    intro robot robot' h
    rw [ticks] at h
    cases e : s.ExecuteCommand robot with
    | error err => rw [e] at h; cases h
    | ok r1 =>
      rw [e] at h
      have : a + 1 + b = (a + b) + 1 := by omega
      rw [this, ticks_succ s _ robot r1 e]
      exact ih r1 robot' h

/-- Line 1, `MR`, in 64-bit arithmetic. -/
theorem tick_line1_wrap (s : Stripe) (id p : Int) :
    s.ExecuteCommand ⟨id, p, program, 0⟩ = .ok ⟨id, wrapInt (p + 1), program, 1⟩ := rfl

/-- Line 4, `MR`, in 64-bit arithmetic. -/
theorem tick_line4_wrap (s : Stripe) (id p : Int) :
    s.ExecuteCommand ⟨id, p, program, 3⟩ = .ok ⟨id, wrapInt (p + 1), program, 4⟩ := rfl

/-- Line 5, `ML`, in 64-bit arithmetic. -/
theorem tick_line5_wrap (s : Stripe) (id p : Int) :
    s.ExecuteCommand ⟨id, p, program, 4⟩ = .ok ⟨id, wrapInt (p - 1), program, 5⟩ := rfl

/-- Line 7, `MR`, in 64-bit arithmetic. -/
theorem tick_line7_wrap (s : Stripe) (id p : Int) :
    s.ExecuteCommand ⟨id, p, program, 6⟩ = .ok ⟨id, wrapInt (p + 1), program, 7⟩ := rfl

/-- Line 1, `MR`. -/
theorem tick_line1 (s : Stripe) (id p : Int) (h1 : minInt ≤ p + 1) (h2 : p + 1 ≤ maxInt) :
    s.ExecuteCommand ⟨id, p, program, 0⟩ = .ok ⟨id, p + 1, program, 1⟩ := by
  rw [tick_line1_wrap, wrapInt_eq _ h1 h2]

/-- Line 2, `IF FLAG`, on the black cell. -/
theorem tick_line2_on (s : Stripe) (id p : Int) (h : p = s.BlackCell) :
    s.ExecuteCommand ⟨id, p, program, 1⟩ = .ok ⟨id, p, program, 2⟩ := by
  rw [ExecuteCommand_IF s ⟨id, p, program, 1⟩ (show (0 : Int) ≤ 1 by decide) rfl]
  simp only [h, ↓reduceIte]
  rfl

/-- Line 2, `IF FLAG`, off the black cell. -/
theorem tick_line2_off (s : Stripe) (id p : Int) (h : p ≠ s.BlackCell) :
    s.ExecuteCommand ⟨id, p, program, 1⟩ = .ok ⟨id, p, program, 3⟩ := by
  rw [ExecuteCommand_IF s ⟨id, p, program, 1⟩ (show (0 : Int) ≤ 1 by decide) rfl]
  simp only [h, ↓reduceIte]
  rfl

/-- Line 3, `GOTO 7`. -/
theorem tick_line3 (s : Stripe) (id p : Int) :
    s.ExecuteCommand ⟨id, p, program, 2⟩ = .ok ⟨id, p, program, 6⟩ := rfl

/-- Line 4, `MR`. -/
theorem tick_line4 (s : Stripe) (id p : Int) (h1 : minInt ≤ p + 1) (h2 : p + 1 ≤ maxInt) :
    s.ExecuteCommand ⟨id, p, program, 3⟩ = .ok ⟨id, p + 1, program, 4⟩ := by
  rw [tick_line4_wrap, wrapInt_eq _ h1 h2]

/-- Line 5, `ML`. -/
theorem tick_line5 (s : Stripe) (id p : Int) (h1 : minInt ≤ p - 1) (h2 : p - 1 ≤ maxInt) :
    s.ExecuteCommand ⟨id, p, program, 4⟩ = .ok ⟨id, p - 1, program, 5⟩ := by
  rw [tick_line5_wrap, wrapInt_eq _ h1 h2]

/-- Line 6, `GOTO 1`. -/
theorem tick_line6 (s : Stripe) (id p : Int) :
    s.ExecuteCommand ⟨id, p, program, 5⟩ = .ok ⟨id, p, program, 0⟩ := rfl

/-- Line 7, `MR`. -/
theorem tick_line7 (s : Stripe) (id p : Int) (h1 : minInt ≤ p + 1) (h2 : p + 1 ≤ maxInt) :
    s.ExecuteCommand ⟨id, p, program, 6⟩ = .ok ⟨id, p + 1, program, 7⟩ := by
  rw [tick_line7_wrap, wrapInt_eq _ h1 h2]

/-- Line 8, `GOTO 7`. -/
theorem tick_line8 (s : Stripe) (id p : Int) :
    s.ExecuteCommand ⟨id, p, program, 7⟩ = .ok ⟨id, p, program, 6⟩ := rfl

/-- The five ticks of one searching round, one after the other. -/
theorem search_round (s : Stripe) (id p : Int) (h : p + 1 ≠ s.BlackCell)
    (hlo : minInt ≤ p) (hhi : p + 2 ≤ maxInt) :
    ticks s 1 ⟨id, p, program, 0⟩ = .ok ⟨id, p + 1, program, 1⟩ ∧
    ticks s 2 ⟨id, p, program, 0⟩ = .ok ⟨id, p + 1, program, 3⟩ ∧
    ticks s 3 ⟨id, p, program, 0⟩ = .ok ⟨id, p + 2, program, 4⟩ ∧
    ticks s 4 ⟨id, p, program, 0⟩ = .ok ⟨id, p + 1, program, 5⟩ ∧
    ticks s 5 ⟨id, p, program, 0⟩ = .ok ⟨id, p + 1, program, 0⟩ := by
  have a1 : p + 1 + 1 = p + 2 := by omega
  have a2 : p + 2 - 1 = p + 1 := by omega
  have l1 := tick_line1 s id p (by omega) (by omega)
  have l4 := tick_line4 s id (p + 1) (by omega) (by omega)
  have l5 := tick_line5 s id (p + 2) (by omega) (by omega)
  rw [a1] at l4
  rw [a2] at l5
  refine ⟨?_, ?_, ?_, ?_, ?_⟩
  · rw [ticks_succ s _ _ _ l1]; rfl
  · rw [ticks_succ s _ _ _ l1, ticks_succ s _ _ _ (tick_line2_off s id _ h)]
    rfl
  · rw [ticks_succ s _ _ _ l1, ticks_succ s _ _ _ (tick_line2_off s id _ h),
      ticks_succ s _ _ _ l4]
    rfl
  · rw [ticks_succ s _ _ _ l1, ticks_succ s _ _ _ (tick_line2_off s id _ h),
      ticks_succ s _ _ _ l4, ticks_succ s _ _ _ l5]
    rfl
  · rw [ticks_succ s _ _ _ l1, ticks_succ s _ _ _ (tick_line2_off s id _ h),
      ticks_succ s _ _ _ l4, ticks_succ s _ _ _ l5, ticks_succ s _ _ _ (tick_line6 s id _)]
    rfl

/-- C13, as stated, fails: from the cell `p` next to the largest one the second
`MR` of the round wraps around, so after three ticks the robot is on the
smallest cell, which is neither `p + 1` nor `p + 2`. -/
theorem C13_counterexample :
    (maxInt - 1) + 1 ≠ (NewStripe 0 5 0 10 false 0).BlackCell ∧
    ticks (NewStripe 0 5 0 10 false 0) 3 ⟨1, maxInt - 1, program, 0⟩
      = .ok ⟨1, minInt, program, 4⟩ ∧
    minInt ≠ (maxInt - 1) + 1 ∧ minInt ≠ (maxInt - 1) + 2 := by
  refine ⟨by decide, ?_, by decide, by decide⟩
  rfl

/-- C13, amended.  Built-in program, searching phase.  A robot at line 1
(`PC = 0`) on a cell `p` of the 64-bit range with `p + 2` still in the range
and `p + 1` not the black cell executes lines 1, 2, 4, 5, 6: after the ticks
1..5 it is at `(p+1, PC 1)`, `(p+1, PC 3)`, `(p+2, PC 4)`, `(p+1, PC 5)` and
`(p+1, PC 0)`; so after exactly five ticks it is back at line 1 one cell to the
right, and it never left `{p+1, p+2}` on the way. -/
theorem C13_searching_phase (s : Stripe) (id p : Int) (h : p + 1 ≠ s.BlackCell)
    (hlo : minInt ≤ p) (hhi : p + 2 ≤ maxInt) :
    ticks s 1 ⟨id, p, program, 0⟩ = .ok ⟨id, p + 1, program, 1⟩ ∧
    ticks s 2 ⟨id, p, program, 0⟩ = .ok ⟨id, p + 1, program, 3⟩ ∧
    ticks s 3 ⟨id, p, program, 0⟩ = .ok ⟨id, p + 2, program, 4⟩ ∧
    ticks s 4 ⟨id, p, program, 0⟩ = .ok ⟨id, p + 1, program, 5⟩ ∧
    ticks s 5 ⟨id, p, program, 0⟩ = .ok ⟨id, p + 1, program, 0⟩ ∧
    ∀ n, 1 ≤ n → n ≤ 5 → ∃ robot', ticks s n ⟨id, p, program, 0⟩ = .ok robot' ∧
      (robot'.Position = p + 1 ∨ robot'.Position = p + 2) := by
  obtain ⟨t1, t2, t3, t4, t5⟩ := search_round s id p h hlo hhi
  refine ⟨t1, t2, t3, t4, t5, ?_⟩
  intro n h1 h5
  interval_cases n
  · exact ⟨_, t1, Or.inl rfl⟩
  · exact ⟨_, t2, Or.inl rfl⟩
  · exact ⟨_, t3, Or.inr rfl⟩
  · exact ⟨_, t4, Or.inl rfl⟩
  · exact ⟨_, t5, Or.inl rfl⟩

theorem C13_searching_phase_witness :
    ticks (NewStripe (-5) 5 0 100 true 200) 1 ⟨1, -5, program, 0⟩
      = .ok ⟨1, -5 + 1, program, 1⟩ ∧
    ticks (NewStripe (-5) 5 0 100 true 200) 2 ⟨1, -5, program, 0⟩
      = .ok ⟨1, -5 + 1, program, 3⟩ ∧
    ticks (NewStripe (-5) 5 0 100 true 200) 3 ⟨1, -5, program, 0⟩
      = .ok ⟨1, -5 + 2, program, 4⟩ ∧
    ticks (NewStripe (-5) 5 0 100 true 200) 4 ⟨1, -5, program, 0⟩
      = .ok ⟨1, -5 + 1, program, 5⟩ ∧
    ticks (NewStripe (-5) 5 0 100 true 200) 5 ⟨1, -5, program, 0⟩
      = .ok ⟨1, -5 + 1, program, 0⟩ ∧
    ∀ n, 1 ≤ n → n ≤ 5 →
      ∃ robot', ticks (NewStripe (-5) 5 0 100 true 200) n ⟨1, -5, program, 0⟩ = .ok robot' ∧
        (robot'.Position = -5 + 1 ∨ robot'.Position = -5 + 2) :=
  C13_searching_phase (NewStripe (-5) 5 0 100 true 200) 1 (-5) (by decide) (by decide)
    (by decide)

/-- Lines 7 and 8 forever: an even number of ticks from line 7. -/
theorem drift_even (s : Stripe) (id : Int) (k : Nat) :
    ∀ q : Int, minInt ≤ q → q + k ≤ maxInt →
      ticks s (2 * k) ⟨id, q, program, 6⟩ = .ok ⟨id, q + k, program, 6⟩ := by
  induction k with
  | zero =>
    intro q _ _
    simp only [Nat.mul_zero, Nat.cast_zero, add_zero]
    rfl
  | succ k ih =>
    intro q hlo hhi
    push_cast at hhi
    have h2 : 2 * (k + 1) = (2 * k + 1) + 1 := by omega
    rw [h2, ticks_succ s _ _ _ (tick_line7 s id q (by omega) (by omega)),
      ticks_succ s _ _ _ (tick_line8 s id _), ih (q + 1) (by omega) (by omega)]
    have : q + 1 + (k : Int) = q + ((k + 1 : Nat) : Int) := by push_cast; omega
    rw [this]

/-- Lines 7 and 8 forever: an odd number of ticks from line 7. -/
theorem drift_odd (s : Stripe) (id : Int) (k : Nat) (q : Int) (hlo : minInt ≤ q)
    (hhi : q + k + 1 ≤ maxInt) :
    ticks s (2 * k + 1) ⟨id, q, program, 6⟩ = .ok ⟨id, q + k + 1, program, 7⟩ := by
  rw [ticks_add s (2 * k) 1 _ _ (drift_even s id k q hlo (by omega)),
    ticks_succ s _ _ _ (tick_line7 s id _ (by omega) (by omega))]
  rfl

/-- Once on lines 7 and 8 the counter stays there, wrap-around or not. -/
theorem drift_pc (s : Stripe) (id : Int) (j : Nat) :
    ∀ (q pc : Int), pc = 6 ∨ pc = 7 →
      ∃ q' pc', ticks s j ⟨id, q, program, pc⟩ = .ok ⟨id, q', program, pc'⟩ ∧
        (pc' = 6 ∨ pc' = 7) := by
  induction j with
  | zero => intro q pc h; exact ⟨q, pc, rfl, h⟩
  | succ j ih =>
    intro q pc h
    rcases h with rfl | rfl
    · rw [ticks_succ s _ _ _ (tick_line7_wrap s id q)]
      exact ih _ 7 (Or.inr rfl)
    · rw [ticks_succ s _ _ _ (tick_line8 s id q)]
      exact ih _ 6 (Or.inl rfl)

/-- The three ticks that take a robot from line 1 on the cell left of the black
cell to line 7 on the black cell. -/
theorem drift_enter (s : Stripe) (id : Int) (hlo : minInt < s.BlackCell)
    (hhi : s.BlackCell ≤ maxInt) :
    ticks s 1 ⟨id, s.BlackCell - 1, program, 0⟩ = .ok ⟨id, s.BlackCell, program, 1⟩ ∧
    ticks s 2 ⟨id, s.BlackCell - 1, program, 0⟩ = .ok ⟨id, s.BlackCell, program, 2⟩ ∧
    ticks s 3 ⟨id, s.BlackCell - 1, program, 0⟩ = .ok ⟨id, s.BlackCell, program, 6⟩ := by
  have a : s.BlackCell - 1 + 1 = s.BlackCell := by omega
  have l1 := tick_line1 s id (s.BlackCell - 1) (by omega) (by omega)
  rw [a] at l1
  refine ⟨?_, ?_, ?_⟩
  · rw [ticks_succ s _ _ _ l1]; rfl
  · rw [ticks_succ s _ _ _ l1, ticks_succ s _ _ _ (tick_line2_on s id _ rfl)]
    rfl
  · rw [ticks_succ s _ _ _ l1, ticks_succ s _ _ _ (tick_line2_on s id _ rfl),
      ticks_succ s _ _ _ (tick_line3 s id _)]
    rfl

/-- C14, as stated, fails: with the black cell `m` on the largest cell the robot
reaches `m` at line 7 after three ticks, and two ticks later (`k = 1`) the `MR`
of line 7 has wrapped it around to the smallest cell, not to `m + 1`. -/
theorem C14_counterexample :
    ticks (NewStripe 0 5 maxInt 10 false 0) 3 ⟨1, maxInt - 1, program, 0⟩
      = .ok ⟨1, maxInt, program, 6⟩ ∧
    ticks (NewStripe 0 5 maxInt 10 false 0) (3 + 2 * 1) ⟨1, maxInt - 1, program, 0⟩
      = .ok ⟨1, minInt, program, 6⟩ ∧
    minInt ≠ maxInt + 1 := by
  refine ⟨?_, ?_, by decide⟩ <;> rfl

/-- C14, amended.  Built-in program, drift phase.  For a black cell `m` of the
64-bit range above its minimum, a robot at line 1 (`PC = 0`) on the cell left
of `m` executes lines 1, 2, 3 and is after three ticks on `m` at line 7
(`PC = 6`).  From then on, after `2k` further ticks it is on `m + k` with
`PC = 6` as long as `m + k` is in the 64-bit range, and after any number of
further ticks its counter is `6` or `7`: it never returns to the searching
lines. -/
theorem C14_drift_phase (s : Stripe) (id : Int) (hlo : minInt < s.BlackCell)
    (hhi : s.BlackCell ≤ maxInt) :
    ticks s 1 ⟨id, s.BlackCell - 1, program, 0⟩ = .ok ⟨id, s.BlackCell, program, 1⟩ ∧
    ticks s 2 ⟨id, s.BlackCell - 1, program, 0⟩ = .ok ⟨id, s.BlackCell, program, 2⟩ ∧
    ticks s 3 ⟨id, s.BlackCell - 1, program, 0⟩ = .ok ⟨id, s.BlackCell, program, 6⟩ ∧
    (∀ k : Nat, s.BlackCell + k ≤ maxInt →
      ticks s (3 + 2 * k) ⟨id, s.BlackCell - 1, program, 0⟩
        = .ok ⟨id, s.BlackCell + k, program, 6⟩) ∧
    (∀ j : Nat, ∃ robot', ticks s (3 + j) ⟨id, s.BlackCell - 1, program, 0⟩ = .ok robot' ∧
      (robot'.PC = 6 ∨ robot'.PC = 7)) := by
  obtain ⟨t1, t2, t3⟩ := drift_enter s id hlo hhi
  refine ⟨t1, t2, t3, ?_, ?_⟩
  · intro k hk
    rw [ticks_add s 3 (2 * k) _ _ t3, drift_even s id k _ (le_of_lt hlo) hk]
  · intro j
    rw [ticks_add s 3 j _ _ t3]
    obtain ⟨q', pc', e, hpc⟩ := drift_pc s id j s.BlackCell 6 (Or.inl rfl)
    exact ⟨_, e, hpc⟩

theorem C14_drift_phase_witness :
    ticks (NewStripe (-5) 5 0 100 true 200) 1
        ⟨1, (NewStripe (-5) 5 0 100 true 200).BlackCell - 1, program, 0⟩
      = .ok ⟨1, (NewStripe (-5) 5 0 100 true 200).BlackCell, program, 1⟩ ∧
    ticks (NewStripe (-5) 5 0 100 true 200) 2
        ⟨1, (NewStripe (-5) 5 0 100 true 200).BlackCell - 1, program, 0⟩
      = .ok ⟨1, (NewStripe (-5) 5 0 100 true 200).BlackCell, program, 2⟩ ∧
    ticks (NewStripe (-5) 5 0 100 true 200) 3
        ⟨1, (NewStripe (-5) 5 0 100 true 200).BlackCell - 1, program, 0⟩
      = .ok ⟨1, (NewStripe (-5) 5 0 100 true 200).BlackCell, program, 6⟩ ∧
    (∀ k : Nat, (NewStripe (-5) 5 0 100 true 200).BlackCell + k ≤ maxInt →
      ticks (NewStripe (-5) 5 0 100 true 200) (3 + 2 * k)
          ⟨1, (NewStripe (-5) 5 0 100 true 200).BlackCell - 1, program, 0⟩
        = .ok ⟨1, (NewStripe (-5) 5 0 100 true 200).BlackCell + k, program, 6⟩) ∧
    (∀ j : Nat, ∃ robot', ticks (NewStripe (-5) 5 0 100 true 200) (3 + j)
        ⟨1, (NewStripe (-5) 5 0 100 true 200).BlackCell - 1, program, 0⟩ = .ok robot' ∧
      (robot'.PC = 6 ∨ robot'.PC = 7)) :=
  C14_drift_phase (NewStripe (-5) 5 0 100 true 200) 1 (by decide) (by decide)

/-! ## Budget and display settings do not enter a step -/

theorem ExecuteCommandAt_withSettings (s : Stripe) (M : Int) (sd : Bool) (d : Int) (i : Nat) :
    (s.withSettings M sd d).ExecuteCommandAt i =
      (s.ExecuteCommandAt i).map fun t => t.withSettings M sd d := by
  unfold ExecuteCommandAt
  show (do
      let robot ← index s.Robots (i : Int)
      let robot' ← (s.withSettings M sd d).ExecuteCommand robot
      pure { s.withSettings M sd d with Robots := s.Robots.set i robot' }) = _
  cases index s.Robots (i : Int) with
  | error e => rfl
  | ok robot =>
    simp only [bind, Except.bind]
    rw [ExecuteCommand_congr (s.withSettings M sd d) s rfl]
    cases s.ExecuteCommand robot with
    | error e => rfl
    | ok robot' => rfl

theorem samePosition_withSettings (s : Stripe) (M : Int) (sd : Bool) (d : Int) :
    (s.withSettings M sd d).samePosition = s.samePosition := rfl

theorem DisplayState_withSettings (s : Stripe) (M : Int) (sd : Bool) (d : Int) :
    (s.withSettings M sd d).DisplayState = s.DisplayState := rfl

/-- The step of a stripe with other settings is the step of the stripe, with
the settings carried along. -/
theorem Step_withSettings (s : Stripe) (M : Int) (sd : Bool) (d : Int) :
    (s.withSettings M sd d).Step =
      (s.Step).map fun r => (r.1, r.2.withSettings M sd d) := by
  unfold Step
  rw [ExecuteCommandAt_withSettings]
  cases s.ExecuteCommandAt 0 with
  | error e => rfl
  | ok s1 =>
    simp only [Except.map, bind, Except.bind]
    rw [samePosition_withSettings]
    cases s1.samePosition with
    | error e => rfl
    | ok m1 =>
      cases m1 with
      | true => rfl
      | false =>
        simp only [Bool.false_eq_true, ↓reduceIte, pure, Except.pure]
        rw [ExecuteCommandAt_withSettings]
        cases s1.ExecuteCommandAt 1 with
        | error e => rfl
        | ok s2 =>
          simp only [Except.map]
          rw [samePosition_withSettings]
          cases s2.samePosition with
          | error e => rfl
          | ok m2 =>
            cases m2 with
            | true => rfl
            | false => rfl

theorem Step_withSettings_ok (s s' : Stripe) (b : Bool) (M : Int) (sd : Bool) (d : Int)
    (h : s.Step = .ok (b, s')) :
    (s.withSettings M sd d).Step = .ok (b, s'.withSettings M sd d) := by
  rw [Step_withSettings, h]
  rfl

theorem Step_withSettings_inv (s t' : Stripe) (b : Bool) (M : Int) (sd : Bool) (d : Int)
    (h : (s.withSettings M sd d).Step = .ok (b, t')) :
    ∃ s', s.Step = .ok (b, s') ∧ t' = s'.withSettings M sd d := by
  rw [Step_withSettings] at h
  cases e : s.Step with
  | error err => rw [e] at h; cases h
  | ok r =>
    obtain ⟨b', s'⟩ := r
    rw [e] at h
    simp only [Except.map, Except.ok.injEq, Prod.mk.injEq] at h
    obtain ⟨rfl, rfl⟩ := h
    exact ⟨s', rfl, rfl⟩

theorem withSettings_self (s : Stripe) : s.withSettings s.MaxSteps s.ShowDisplay s.DelayMs = s :=
  rfl

theorem withSettings_withSettings (s : Stripe) (M M' : Int) (sd sd' : Bool) (d d' : Int) :
    (s.withSettings M sd d).withSettings M' sd' d' = s.withSettings M' sd' d' := rfl

/-! ## One iteration of the loop -/

theorem runLoop_succ_ok (fuel : Nat) (s : Stripe) (r : Bool × Stripe)
    (hlt : s.Steps < s.MaxSteps) (h : runLoop (fuel + 1) s false = .ok r) :
    ∃ met s', s.Step = .ok (met, s') ∧ (s'.ShowDisplay = true → s'.DisplayState = .ok ()) ∧
      runLoop fuel s' met = .ok r := by
  rw [runLoop_succ fuel s hlt] at h
  cases e : s.Step with
  | error err => rw [e] at h; cases h
  | ok p =>
    obtain ⟨met, s'⟩ := p
    rw [e] at h
    simp only at h
    refine ⟨met, s', rfl, ?_, ?_⟩
    · intro hsd
      rw [hsd] at h
      simp only [↓reduceIte] at h
      cases hd : s'.DisplayState with
      | error err => rw [hd] at h; cases h
      | ok u => rfl
    · cases hsd : s'.ShowDisplay with
      | false => simpa [hsd] using h
      | true =>
        rw [hsd] at h
        simp only [↓reduceIte] at h
        cases hd : s'.DisplayState with
        | error err => rw [hd] at h; cases h
        | ok u => rw [hd] at h; exact h

theorem runLoop_succ_of (fuel : Nat) (s s' : Stripe) (met : Bool)
    (hlt : s.Steps < s.MaxSteps) (hstep : s.Step = .ok (met, s'))
    (hd : s'.ShowDisplay = true → s'.DisplayState = .ok ()) :
    runLoop (fuel + 1) s false = runLoop fuel s' met := by
  rw [runLoop_succ fuel s hlt, hstep]
  cases hsd : s'.ShowDisplay with
  | false => simp [hsd]
  | true => simp [hsd, hd hsd]

/-! ## Budget monotonicity -/

/-- A meeting found within a budget is found, the same, within any larger
budget. -/
theorem runLoop_budget_true (fuel : Nat) (N N' : Int) (sd : Bool) (d : Int) (hNN : N ≤ N') :
    ∀ (s sf : Stripe), runLoop fuel (s.withSettings N sd d) false = .ok (true, sf) →
      ∀ fuel', fuel ≤ fuel' →
        runLoop fuel' (s.withSettings N' sd d) false = .ok (true, sf.withSettings N' sd d) := by
  induction fuel with
  | zero =>
    intro s sf h
    simp [runLoop, pure, Except.pure] at h
  | succ fuel ih =>
    intro s sf h fuel' hf
    by_cases hlt : (s.withSettings N sd d).Steps < (s.withSettings N sd d).MaxSteps
    · obtain ⟨met, t', e, hd, h'⟩ := runLoop_succ_ok fuel _ _ hlt h
      obtain ⟨s', es, rfl⟩ := Step_withSettings_inv s t' met N sd d e
      obtain ⟨f', rfl⟩ : ∃ f', fuel' = f' + 1 := ⟨fuel' - 1, by omega⟩
      have hlt' : (s.withSettings N' sd d).Steps < (s.withSettings N' sd d).MaxSteps :=
        lt_of_lt_of_le hlt hNN
      rw [runLoop_succ_of f' _ _ met hlt' (Step_withSettings_ok s s' met N' sd d es) hd]
      cases met with
      | true =>
        rw [runLoop_met] at h'
        cases h'
        rw [runLoop_met]
        rfl
      | false => exact ih s' sf h' f' (by omega)
    · rw [runLoop_done _ _ false hlt] at h
      cases h

/-- A budget that is used up without a meeting leaves no meeting within any
smaller budget. -/
theorem runLoop_budget_false (fuel : Nat) (N N' : Int) (sd : Bool) (d : Int) (hNN : N ≤ N') :
    ∀ (s sf' : Stripe) (fuel' : Nat), (N' - s.Steps).toNat ≤ fuel' →
      runLoop fuel' (s.withSettings N' sd d) false = .ok (false, sf') →
      ∃ sf, runLoop fuel (s.withSettings N sd d) false = .ok (false, sf) := by
  induction fuel with
  | zero => intro s sf' fuel' _ _; exact ⟨_, rfl⟩
  | succ fuel ih =>
    intro s sf' fuel' hf h
    by_cases hlt : (s.withSettings N sd d).Steps < (s.withSettings N sd d).MaxSteps
    · have hlt' : (s.withSettings N' sd d).Steps < (s.withSettings N' sd d).MaxSteps :=
        lt_of_lt_of_le hlt hNN
      have hlt'' : s.Steps < N' := hlt'
      obtain ⟨f', rfl⟩ : ∃ f', fuel' = f' + 1 := ⟨fuel' - 1, by omega⟩
      obtain ⟨met, t', e, hd, h'⟩ := runLoop_succ_ok f' _ _ hlt' h
      obtain ⟨s', es, rfl⟩ := Step_withSettings_inv s t' met N' sd d e
      cases met with
      | true =>
        rw [runLoop_met] at h'
        cases h'
      | false =>
        obtain ⟨hst, -⟩ := Step_steps s s' false es
        simp only [Bool.false_eq_true, ↓reduceIte] at hst
        rw [runLoop_succ_of fuel _ _ false hlt (Step_withSettings_ok s s' false N sd d es) hd]
        exact ih s' sf' f' (by rw [hst]; omega) h'
    · exact ⟨_, runLoop_done _ _ false hlt⟩

theorem Run_of_loop (s : Stripe) (r : Bool × Stripe) (hd : s.DisplayState = .ok ())
    (h : runLoop (s.MaxSteps - s.Steps).toNat s false = .ok r) : s.Run = .ok r := by
  unfold Run
  rw [hd]
  exact h

/-- C19. Budget monotonicity.  From the same stripe (same robots, programs,
black cell, display settings), for budgets `N ≤ N'`: a run with budget `N` that
returns `true` returns `true` with budget `N'` as well, with the same robots
(so the same meeting position) and the same `Steps`; and if the run with budget
`N'` returns `false`, so does the run with budget `N`. -/
theorem C19_budget_monotone (s : Stripe) (N N' : Int) (sd : Bool) (d : Int) (hNN : N ≤ N') :
    (∀ sf, (s.withSettings N sd d).Run = .ok (true, sf) →
      (s.withSettings N' sd d).Run = .ok (true, sf.withSettings N' sd d) ∧
      (sf.withSettings N' sd d).Robots = sf.Robots ∧
      (sf.withSettings N' sd d).Steps = sf.Steps) ∧
    (∀ sf', (s.withSettings N' sd d).Run = .ok (false, sf') →
      ∃ sf, (s.withSettings N sd d).Run = .ok (false, sf)) := by
  constructor
  · intro sf h
    obtain ⟨hd, hloop⟩ := Run_ok_loop _ _ h
    refine ⟨Run_of_loop _ _ hd ?_, rfl, rfl⟩
    exact runLoop_budget_true _ N N' sd d hNN s sf hloop _
      (by show (N - s.Steps).toNat ≤ (N' - s.Steps).toNat; omega)
  · intro sf' h
    obtain ⟨hd, hloop⟩ := Run_ok_loop _ _ h
    obtain ⟨sf, hsf⟩ := runLoop_budget_false (N - s.Steps).toNat N N' sd d hNN s sf'
      (N' - s.Steps).toNat (le_refl _) hloop
    exact ⟨sf, Run_of_loop _ _ hd hsf⟩

theorem C19_budget_monotone_witness :
    (∀ sf, ((NewStripe (-2) 2 0 0 false 0).withSettings 19 false 0).Run = .ok (true, sf) →
      ((NewStripe (-2) 2 0 0 false 0).withSettings 100 false 0).Run
        = .ok (true, sf.withSettings 100 false 0) ∧
      (sf.withSettings 100 false 0).Robots = sf.Robots ∧
      (sf.withSettings 100 false 0).Steps = sf.Steps) ∧
    (∀ sf', ((NewStripe (-2) 2 0 0 false 0).withSettings 100 false 0).Run = .ok (false, sf') →
      ∃ sf, ((NewStripe (-2) 2 0 0 false 0).withSettings 19 false 0).Run = .ok (false, sf)) :=
  C19_budget_monotone (NewStripe (-2) 2 0 0 false 0) 19 100 false 0 (by decide)

/-! ## Display settings -/

/-- A run of at most one step with the display off. -/
theorem Run_single_step (t t' : Stripe) (b : Bool) (hd : t.DisplayState = .ok ())
    (hsd : t.ShowDisplay = false) (hN : t.MaxSteps ≤ t.Steps + 1)
    (hstep : t.Step = .ok (b, t')) :
    t.Run = .ok (if t.Steps < t.MaxSteps then (b, t') else (false, t)) := by
  apply Run_of_loop _ _ hd
  by_cases hlt : t.Steps < t.MaxSteps
  · have hf : (t.MaxSteps - t.Steps).toNat = 0 + 1 := by omega
    have hsd' : t'.ShowDisplay = false := (Step_steps t t' b hstep).2.2.1.trans hsd
    rw [hf, runLoop_succ_of 0 t t' b hlt hstep (by rw [hsd']; intro h; cases h), if_pos hlt]
    rfl
  · rw [runLoop_done _ t false hlt, if_neg hlt]

/-! ## Steps and ticks -/

end Stripe

end RobotSolution
